import Mathlib

/-!
Verification development for the MCS_Education_Resources ephemeris
acquisition scripts (the "Chunked Time-Series Vector Retrieval & Assembly
Engine").

The Python sources are shallowly embedded:

* time arithmetic on `datetime` objects (exact integer seconds) and on
  Julian-date floats is modelled over `ℚ`, measured in days, so that the
  tolerance constant `1e-10` (days) of the sources is exact;
* the remote Horizons service is an explicit oracle argument (a function
  from a requested window to a response); the claims' hypotheses about the
  service become hypotheses on that oracle;
* `while` loops become fuel-indexed recursions, `none` meaning the fuel ran
  out (the loop would still be running);
* raised exceptions become `Except` values; `time.sleep` calls are recorded
  where a claim is about delays and dropped otherwise;
* textual cells of the parsed tables are abstracted by the observations the
  scripts make of them (emptiness, leading digit, result of `float(...)`
  with and without the `D`→`E` exponent rewrite).
-/

set_option maxHeartbeats 1000000

attribute [local semireducible] Rat.sub Rat.add Rat.mul Rat.inv Rat.ofScientific

namespace MCS

/-- Duplicate-timestamp tolerance used across the scripts: `1e-10` days. -/
def eps : ℚ := 1 / 10 ^ 10

/-! ## Computable floor and ceiling on ℚ

Mathlib's `Int.floor` on `ℚ` does not reduce in the kernel, so the grid
model uses these computable versions, proved equal to Mathlib's. -/

/-- Computable floor of a rational (Euclidean division of numerator by
denominator). -/
def qfloor (q : ℚ) : ℤ := q.num / (q.den : ℤ)

/-- Computable ceiling of a rational. -/
def qceil (q : ℚ) : ℤ := -qfloor (-q)

/-! ## Integer ranges

`kRange a b` is the inclusive list of integers `a, a+1, …, b`, used to
describe the index set of a sampling grid. -/

/-- `n` consecutive integers starting at `a`. -/
def kRangeAux (a : ℤ) : ℕ → List ℤ
  | 0 => []
  | n + 1 => a :: kRangeAux (a + 1) n

/-- Inclusive integer range `a..b` as a list. -/
def kRange (a b : ℤ) : List ℤ := kRangeAux a (b + 1 - a).toNat

/-! ## The sampling-grid service model

Claim C1's hypothesis: for any requested window `[a, b]` the service
returns exactly the samples of the global step grid `t0 + k·d` (JD days)
that fall inclusively within the window, with the state vector of a grid
instant a function `pvOf` of its index. -/

/-- One successful window response: timestamps (JD) and flattened
position/velocity values, as produced by `parse_vectors`. -/
structure FetchOk where
  t : List ℚ
  pv : List ℚ
deriving DecidableEq

/-- Outcome of `horizons_vectors_once` as seen by the juno chunk loop:
either a parsed series, or the `StartTooEarly` exception carrying the
corrected boundary. Other exceptions abort the whole fetch and are not
interesting to the chunk-scheduler claims. -/
inductive FetchR
  | ok (r : FetchOk)
  | tooEarly (earliest : ℚ)
deriving DecidableEq

/-- Grid indices of window `[a, b]`: all `k` with `a ≤ t0 + k·d ≤ b`. -/
def gridKs (t0 d a b : ℚ) : List ℤ :=
  kRange (qceil ((a - t0) / d)) (qfloor ((b - t0) / d))

/-- The grid instant of index `k`. -/
def gridPt (t0 d : ℚ) (k : ℤ) : ℚ := t0 + (k : ℚ) * d

/-- Grid timestamps of window `[a, b]`. -/
def gridT (t0 d a b : ℚ) : List ℚ := (gridKs t0 d a b).map (gridPt t0 d)

/-- Flattened grid state vectors of window `[a, b]`. -/
def gridPV (t0 d : ℚ) (pvOf : ℤ → List ℚ) (a b : ℚ) : List ℚ :=
  ((gridKs t0 d a b).map pvOf).flatten

/-- The grid-faithful service oracle. -/
def gridFetch (t0 d : ℚ) (pvOf : ℤ → List ℚ) : ℚ → ℚ → FetchR :=
  fun a b => .ok ⟨gridT t0 d a b, gridPV t0 d pvOf a b⟩

/-! ## juno/explorer chunk scheduler (`horizons_vectors_chunked`) -/

/-- Stitching step of the juno and explorer_one chunk loops: drop every
leading sample of the new window whose timestamp is at most the last
accepted timestamp plus the tolerance, together with its six vector
fields, then append (the `idx0` while-loop of the sources). -/
def junoStitch (accT accPv t pv : List ℚ) : List ℚ × List ℚ :=
  match accT.getLast? with
  | none => (t, pv)
  | some last =>
    let idx0 := (t.takeWhile (fun x => decide (x ≤ last + eps))).length
    if idx0 < t.length then (accT ++ t.drop idx0, accPv ++ pv.drop (idx0 * 6))
    else (accT, accPv)

/-- The juno `while start_dt < stop_dt` loop, fuel-indexed.  `none` means
the fuel ran out (the loop is still running); `some (.error ())` models the
`RuntimeError` raised when a `StartTooEarly` boundary is at or past the
stop time; `some (.ok acc)` is the accumulated series at loop exit (normal
exit, or the silent `break` when the window stop failed to advance). -/
def junoLoopFuel (f : ℚ → ℚ → FetchR) (stop span : ℚ) :
    ℕ → ℚ → List ℚ → List ℚ → Option (Except Unit (List ℚ × List ℚ))
  | 0, cur, accT, accPv =>
      if cur < stop then none else some (.ok (accT, accPv))
  | fuel + 1, cur, accT, accPv =>
      if cur < stop then
        let cs := if cur + span > stop then stop else cur + span
        match f cur cs with
        | .tooEarly e =>
            if e ≥ stop then some (.error ())
            else junoLoopFuel f stop span fuel e accT accPv
        | .ok r =>
            let acc' := junoStitch accT accPv r.t r.pv
            if cs = cur then some (.ok acc')
            else junoLoopFuel f stop span fuel cs acc'.1 acc'.2
      else some (.ok (accT, accPv))

/-- Final validity check of juno `horizons_vectors_chunked`:
`len(all_t) < 2 or len(all_pv) != len(all_t) * 6` raises. -/
def junoFinal (r : List ℚ × List ℚ) : Except Unit (List ℚ × List ℚ) :=
  if r.1.length < 2 ∨ r.2.length ≠ r.1.length * 6 then .error () else .ok r

/-- juno `horizons_vectors_chunked` over window span `span` (days),
fuel-indexed. -/
def junoChunkedFuel (f : ℚ → ℚ → FetchR) (start stop span : ℚ) (fuel : ℕ) :
    Option (Except Unit (List ℚ × List ℚ)) :=
  (junoLoopFuel f stop span fuel start [] []).map (fun r => r.bind junoFinal)

/-! ## explorer_one chunk scheduler

Identical stitching to juno; no `StartTooEarly` handling and no break
check (the per-window retry of the source is internal to the fetch). -/

/-- Grid-faithful service, success-only view (for the explorer_one and
bennu loops, which have no `StartTooEarly` path). -/
def gridFetchOk (t0 d : ℚ) (pvOf : ℤ → List ℚ) : ℚ → ℚ → FetchOk :=
  fun a b => ⟨gridT t0 d a b, gridPV t0 d pvOf a b⟩

/-- explorer_one `while cur < stop_dt` loop, fuel-indexed. -/
def explorerLoopFuel (f : ℚ → ℚ → FetchOk) (stop span : ℚ) :
    ℕ → ℚ → List ℚ → List ℚ → Option (List ℚ × List ℚ)
  | 0, cur, accT, accPv => if cur < stop then none else some (accT, accPv)
  | fuel + 1, cur, accT, accPv =>
      if cur < stop then
        let cs := if cur + span > stop then stop else cur + span
        let r := f cur cs
        let acc' := junoStitch accT accPv r.t r.pv
        explorerLoopFuel f stop span fuel cs acc'.1 acc'.2
      else some (accT, accPv)

/-- explorer_one `horizons_vectors_chunked` (final validity check is the
same `len < 2 or len(pv) != 6*len(t)` raise as juno's). -/
def explorerChunkedFuel (f : ℚ → ℚ → FetchOk) (start stop span : ℚ) (fuel : ℕ) :
    Option (Except Unit (List ℚ × List ℚ)) :=
  (explorerLoopFuel f stop span fuel start [] []).map junoFinal

/-! ## bennu chunk scheduler -/

/-- bennu boundary de-duplication when merging a new window:
`if t_all and t and abs(t[0] - t_all[-1]) < 1e-10: t = t[1:]; pv = pv[6:]`
then extend. -/
def bennuMergeStep (tAll pvAll t pv : List ℚ) : List ℚ × List ℚ :=
  match tAll.getLast?, t.head? with
  | some last, some x =>
      if |x - last| < eps then (tAll ++ t.drop 1, pvAll ++ pv.drop 6)
      else (tAll ++ t, pvAll ++ pv)
  | _, _ => (tAll ++ t, pvAll ++ pv)

/-- bennu `while cur < stop_dt` loop, fuel-indexed. -/
def bennuLoopFuel (f : ℚ → ℚ → FetchOk) (stop span : ℚ) :
    ℕ → ℚ → List ℚ → List ℚ → Option (List ℚ × List ℚ)
  | 0, cur, tAll, pvAll => if cur < stop then none else some (tAll, pvAll)
  | fuel + 1, cur, tAll, pvAll =>
      if cur < stop then
        let cs := min stop (cur + span)
        let r := f cur cs
        let acc' := bennuMergeStep tAll pvAll r.t r.pv
        bennuLoopFuel f stop span fuel cs acc'.1 acc'.2
      else some (tAll, pvAll)

/-- bennu `horizons_vectors_chunked`: a single direct request when the
whole span fits within the per-call sample ceiling, else the chunk loop.
`d` is the step in days (the step-string regex of the source is
abstracted), `maxS` the sample ceiling `MAX_SAMPLES_PER_CALL`. -/
def bennuChunked (f : ℚ → ℚ → FetchOk) (maxS : ℤ) (d start stop : ℚ) (fuel : ℕ) :
    Option (List ℚ × List ℚ) :=
  if qfloor ((stop - start) / d) + 1 ≤ maxS then some ((f start stop).t, (f start stop).pv)
  else bennuLoopFuel f stop (d * ((maxS - 1 : ℤ) : ℚ)) fuel start [] []

/-- State vectors used by the concrete witnesses. -/
def witnessPv (k : ℤ) : List ℚ := [(k : ℚ), 0, 0, 0, 0, 1]

/-! ## C7: termination and the missing NoProgressError -/

/-- Fetcher of the C7 counterexample: every window request is rejected
with a `StartTooEarly` whose corrected boundary equals the window start,
so the correction never advances the cursor. -/
def collapsingFetch : ℚ → ℚ → FetchR := fun a _ => .tooEarly a

/-! ## C9: no partial report? -/

/-- Flattened vectors returned by the stale fetcher (three zero blocks). -/
def stalePv : List ℚ := List.replicate 18 0

/-- Fetcher of the C9 counterexample: it answers every window request
with the same three samples `0, 1, 2` — as a service whose data end at
JD 2 does. -/
def staleFetch : ℚ → ℚ → FetchR := fun _ _ => .ok ⟨[0, 1, 2], stalePv⟩

/-! ## Substring test used to state "the message contains ..." facts -/

/-- Boolean list-prefix test. -/
def prefixB : List Char → List Char → Bool
  | [], _ => true
  | _ :: _, [] => false
  | a :: as, b :: bs => a == b && prefixB as bs

/-- Boolean substring test: `needle` occurs contiguously in the haystack. -/
def substrB (needle : List Char) : List Char → Bool
  | [] => prefixB needle []
  | c :: rest => prefixB needle (c :: rest) || substrB needle rest

/-! ## C6: single-window request retries (`request_json`) -/

/-- juno `request_json`: up to `RETRIES = 5` attempts; after a failed
attempt other than the last, sleep `BACKOFF_S * 2**i` seconds
(`BACKOFF_S = 1.8`); after the loop raise
`RuntimeError(f"Horizons request failed: {last}")`.  The model returns
(recorded sleep delays, number of attempts made, outcome); `attempt` maps
the attempt index to the HTTP outcome, errors as strings. -/
def junoReqAux {α : Type} (attempt : ℕ → Except String α) :
    ℕ → ℕ → Option String → List ℚ × ℕ × Except String α
  | _, 0, last => ([], 0, .error ("Horizons request failed: " ++ last.getD "None"))
  | i, rem + 1, _ =>
      match attempt i with
      | .ok v => ([], 1, .ok v)
      | .error e =>
          if rem = 0 then ([], 1, .error ("Horizons request failed: " ++ e))
          else
            let r := junoReqAux attempt (i + 1) rem (some e)
            ((9 / 5 : ℚ) * 2 ^ i :: r.1, r.2.1 + 1, r.2.2)

def junoRequestJson {α : Type} (attempt : ℕ → Except String α) :
    List ℚ × ℕ × Except String α :=
  junoReqAux attempt 0 5 none

/-- bennu `request_json`: 5 attempts, sleeping `BACKOFF_S * (i + 1)`
(`BACKOFF_S = 2.0`) after every failed attempt (the last included), then
raise `RuntimeError(f"Horizons request failed after 5 retries: {last_err}")`. -/
def bennuReqAux {α : Type} (attempt : ℕ → Except String α) :
    ℕ → ℕ → Option String → List ℚ × ℕ × Except String α
  | _, 0, last =>
      ([], 0, .error ("Horizons request failed after 5 retries: " ++ last.getD "None"))
  | i, rem + 1, _ =>
      match attempt i with
      | .ok v => ([], 1, .ok v)
      | .error e =>
          let r := bennuReqAux attempt (i + 1) rem (some e)
          ((2 : ℚ) * ((i : ℚ) + 1) :: r.1, r.2.1 + 1, r.2.2)

def bennuRequestJson {α : Type} (attempt : ℕ → Except String α) :
    List ℚ × ℕ × Except String α :=
  bennuReqAux attempt 0 5 none

/-! ## C8: multi-body grid validation -/

/-- Pairwise scan of the juno/bennu/explorer `main` grid check: raise
`RuntimeError(f"Time grid mismatch: {name}")` at the first pair of
timestamps differing by more than `1e-10`. -/
def gridZipCheck (name : String) : List (ℚ × ℚ) → Except String Unit
  | [] => .ok ()
  | (a, b) :: rest =>
      if |a - b| > eps then .error ("Time grid mismatch: " ++ name)
      else gridZipCheck name rest

/-- The per-body grid validation of juno `main`: length equality, then
pairwise tolerance over `zip(t, t_ref)`. -/
def junoGridCheck (name : String) (t tRef : List ℚ) : Except String Unit :=
  if t.length ≠ tRef.length then .error ("Time grid mismatch: " ++ name)
  else gridZipCheck name (t.zip tRef)

/-- The Ephemeris-script variant (`generate_ephemeris.py` main): only the
lengths are compared, with a fixed message that names no body. -/
def ephemerisGridCheck (t tRef : List ℚ) : Except String Unit :=
  if t.length ≠ tRef.length then .error "Time grid mismatch in multi ephemeris."
  else .ok ()

/-! ## C10: the ISS generator fills failed SGP4 samples -/

/-- One iteration of the ISS generator main loop over a sample instant:
the timestamp (JD) is always appended; on a nonzero SGP4 error code
(outcome `none`) the last six emitted state values (`pv[-6:]`) are
duplicated, or six zeros when nothing was emitted yet; on success the six
returned values are appended. -/
def issStep (acc : List ℚ × List ℚ) (s : ℚ × Option (List ℚ)) : List ℚ × List ℚ :=
  match s.2 with
  | none =>
      (acc.1 ++ [s.1],
       acc.2 ++ (if acc.2 ≠ [] then acc.2.drop (acc.2.length - 6) else [0, 0, 0, 0, 0, 0]))
  | some v => (acc.1 ++ [s.1], acc.2 ++ v)

/-- The ISS generator main loop (`generate_iss_ephemeris.py` `main`). -/
def issBuild (samples : List (ℚ × Option (List ℚ))) : List ℚ × List ℚ :=
  samples.foldl issStep ([], [])

/-- The `i`-th six-value state block of a flattened pv list. -/
def pvBlock (pv : List ℚ) (i : ℕ) : List ℚ := (pv.drop (6 * i)).take 6

/-- Concrete ISS run used by the C10 witness: one successful propagation
followed by two failed ones. -/
def issWitnessSamples : List (ℚ × Option (List ℚ)) :=
  [(0, some [1, 2, 3, 4, 5, 6]), (1, none), (2, none)]

/-! ## Sample parser (`parse_vectors`)

A table cell is abstracted by the four observations the scripts make of
it: whether the stripped text is empty, whether it starts with a digit
(`re.match("^\\d", ...)`), and the results of `float(...)` on the raw
text and on the text with `D`/`d` exponent markers replaced by `E`
(`none` models a `ValueError`). -/

structure Cell where
  isEmptyStr : Bool
  startsDigit : Bool
  valPlain : Option ℚ
  valDE : Option ℚ
deriving DecidableEq

/-- A line of the `$$SOE..$$EOE` block as the scripts see it after
`strip()`: blank, comma-separated (with its stripped cells), or a
whitespace-separated table row (with its tokens and whether the stripped
line starts with a digit). -/
inductive LineShape
  | blank
  | csv (parts : List Cell)
  | table (toks : List Cell) (firstDigit : Bool)
deriving DecidableEq

/-- A block line: its raw text (used for error previews) and its shape. -/
structure SrcLine where
  raw : String
  shape : LineShape
deriving DecidableEq

/-- juno/explorer: `while parts and parts[-1] == "": parts.pop()`. -/
def dropTrailingEmpties (parts : List Cell) : List Cell :=
  ((parts.reverse).dropWhile (fun c => c.isEmptyStr)).reverse

/-- juno/explorer `parse_vectors`, CSV branch for one line: skip if empty
after the trailing pop, if the first cell does not start with a digit, or
if `float` fails anywhere; select the vector cells starting at offset 2
when the row has at least 8 cells, else at offset 1. -/
def junoCsvLine (parts0 : List Cell) : Option (ℚ × List ℚ) :=
  (dropTrailingEmpties parts0).head?.bind (fun p0 =>
    if ¬ p0.startsDigit then none
    else p0.valPlain.bind (fun jd =>
      if (((dropTrailingEmpties parts0).drop
          (if (dropTrailingEmpties parts0).length ≥ 8 then 2 else 1)).take 6).length < 6
      then none
      else ((((dropTrailingEmpties parts0).drop
          (if (dropTrailingEmpties parts0).length ≥ 8 then 2 else 1)).take 6).mapM
          (fun c : Cell => c.valDE)).bind (fun vals => some (jd, vals))))

/-- juno `parse_vectors`, whitespace-table branch: skip unless the line
starts with a digit and has at least 7 tokens; the vector cells are the
last six tokens. -/
def junoTableLine (toks : List Cell) (firstDigit : Bool) : Option (ℚ × List ℚ) :=
  if ¬ firstDigit then none
  else if toks.length < 7 then none
  else
    toks.head?.bind (fun t0 =>
      t0.valPlain.bind (fun jd =>
        ((toks.drop (toks.length - 6)).mapM (fun c : Cell => c.valDE)).bind
          (fun vals => some (jd, vals))))

def junoParseLine : LineShape → Option (ℚ × List ℚ)
  | .blank => none
  | .csv parts => junoCsvLine parts
  | .table toks fd => junoTableLine toks fd

/-- bennu `parse_vectors` for one line: only CSV lines with at least 8
cells are considered; the vector cells are always `parts[2:8]`. -/
def bennuCsvLine (parts : List Cell) : Option (ℚ × List ℚ) :=
  if parts.length < 8 then none
  else
    parts.head?.bind (fun p0 =>
      p0.valPlain.bind (fun jd =>
        (((parts.drop 2).take 6).mapM (fun c : Cell => c.valDE)).bind
          (fun vals => some (jd, vals))))

def bennuParseLine : LineShape → Option (ℚ × List ℚ)
  | .blank => none
  | .csv parts => bennuCsvLine parts
  | .table _ _ => none

def junoSamples (block : List SrcLine) : List (ℚ × List ℚ) :=
  block.filterMap (fun ln => junoParseLine ln.shape)

def bennuSamples (block : List SrcLine) : List (ℚ × List ℚ) :=
  block.filterMap (fun ln => bennuParseLine ln.shape)

/-- `"\n".join(block.splitlines()[:25])` — the error preview. -/
def previewStr (block : List SrcLine) : String :=
  String.intercalate "\n" ((block.take 25).map (fun ln => ln.raw))

/-- juno/bennu/explorer `parse_vectors` final check and error. -/
def parseVectorsOf (samples : List (ℚ × List ℚ)) (block : List SrcLine) :
    Except String (List ℚ × List ℚ) :=
  if (samples.map Prod.fst).length < 2
      ∨ ((samples.map Prod.snd).flatten).length ≠ (samples.map Prod.fst).length * 6 then
    .error ("Parsed too few samples. Preview:\n" ++ previewStr block)
  else .ok (samples.map Prod.fst, (samples.map Prod.snd).flatten)

def junoParseVectors (block : List SrcLine) : Except String (List ℚ × List ℚ) :=
  parseVectorsOf (junoSamples block) block

def bennuParseVectors (block : List SrcLine) : Except String (List ℚ × List ℚ) :=
  parseVectorsOf (bennuSamples block) block

/-- `generate_ephemeris.py` `horizons_vectors` parsing stage, abstracted
over the `ROW_RE.finditer` matches (each match yields one timestamp and
six vector fields); on fewer than 2 matches the script raises a fixed
message that includes nothing from the block. -/
def ephemerisParseResult (ms : List (ℚ × (ℚ × ℚ × ℚ × ℚ × ℚ × ℚ))) :
    Except String (List ℚ × List ℚ) :=
  if (ms.map Prod.fst).length < 2 then .error "Parsed too few samples from Horizons output."
  else .ok (ms.map Prod.fst, (ms.map (fun m =>
    [m.2.1, m.2.2.1, m.2.2.2.1, m.2.2.2.2.1, m.2.2.2.2.2.1, m.2.2.2.2.2.2])).flatten)

/-! ## C3 and C4: parse error contract and column selection -/

/-- A cell whose stripped text is a plain number (as both `float(s)` and
`float(s.replace("D","E"))` succeed and it starts with a digit). -/
def numCell (v : ℚ) : Cell := ⟨false, true, some v, some v⟩

/-- A calendar-label cell: non-empty, non-numeric. -/
def labelCell : Cell := ⟨false, false, none, none⟩

/-- An 8-column CSV row `JD, CAL, X, Y, Z, VX, VY, VZ`. -/
def c3Row (jd : ℚ) : List Cell :=
  [numCell jd, labelCell, numCell 1, numCell 2, numCell 3, numCell 4, numCell 5, numCell 6]

/-- A well-formed two-row block used by the C3 witness. -/
def c3WitnessBlock : List SrcLine :=
  [⟨"row1", .csv (c3Row 100)⟩, ⟨"row2", .csv (c3Row 101)⟩]

/-! ## C5: the range-error interpreters (`parse_earliest_from_error`)

The bennu pattern `earliest\s+available\s+date\s+is\s+([\w\s:\-]+)\s+\(UT\)`
(case-insensitive) is embedded over `List Char` with the ASCII reading of
`\w`/`\s` (Horizons messages are ASCII).  The greedy capture `[\w\s:\-]+`
is a run of class characters; since `(` is outside the class, the `(UT)`
marker can only start at the end of the maximal run, and the mandatory
`\s+` before it forces the run to end in whitespace, captured minus that
final whitespace character.  The engine is deterministic (maximal-munch
with these forced splits), which agrees with Python's backtracking
except on degenerate all-whitespace captures, where both pipelines
return no boundary anyway.

The juno pattern is built with doubled backslashes inside a raw string,
so as a regex each `\\d{n}` matches a literal backslash followed by `n`
letter-`d` characters: every numeric capture, when the pattern matches at
all, is that fixed text, and `int()` on it raises an uncaught
`ValueError`; realistic Horizons messages contain no backslashes and
never match. -/

/-- A wall-clock datetime as the scripts build it (UTC). -/
structure DT where
  year : ℕ
  month : ℕ
  day : ℕ
  hour : ℕ
  minute : ℕ
  second : ℕ
deriving DecidableEq

/-- ASCII whitespace, the `\s` class. -/
def wsChar (c : Char) : Bool :=
  c == ' ' || c == '\t' || c == '\n' || c == '\r' || c == '\x0b' || c == '\x0c'

/-- ASCII word characters, the `\w` class. -/
def wordChar (c : Char) : Bool := c.isAlphanum || c == '_'

/-- The bennu capture class `[\w\s:\-]`. -/
def clsChar (c : Char) : Bool := wordChar c || wsChar c || c == ':' || c == '-'

/-- ASCII lowercasing, for the `re.I` / strptime case-insensitive matches. -/
def lowerC (c : Char) : Char :=
  if 'A' ≤ c ∧ c ≤ 'Z' then Char.ofNat (c.toNat + 32) else c

/-- Match a literal character sequence, returning the rest. -/
def eatLit : List Char → List Char → Option (List Char)
  | [], s => some s
  | _ :: _, [] => none
  | c :: cs, x :: xs => if x = c then eatLit cs xs else none

/-- Case-insensitive literal match. -/
def eatLitCI : List Char → List Char → Option (List Char)
  | [], s => some s
  | _ :: _, [] => none
  | c :: cs, x :: xs => if lowerC x = lowerC c then eatLitCI cs xs else none

/-- `\s+`, greedy: at least one whitespace character. -/
def eatWs1 : List Char → Option (List Char)
  | [] => none
  | c :: rest => if wsChar c then some (rest.dropWhile (fun x => wsChar x)) else none

/-- One arbitrary character, the regex `.`. -/
def eatAny : List Char → Option (Char × List Char)
  | [] => none
  | c :: rest => some (c, rest)

/-- `[A-Z]{3}`, returning the three captured characters. -/
def eatUpper3 : List Char → Option (List Char × List Char)
  | a :: b :: c :: rest =>
      if ('A' ≤ a ∧ a ≤ 'Z') ∧ ('A' ≤ b ∧ b ≤ 'Z') ∧ ('A' ≤ c ∧ c ≤ 'Z') then
        some ([a, b, c], rest)
      else none
  | _ => none

/-- The bennu `EARLIEST_RE` tried at one position: the four header words
separated by `\s+`, then the captured class run, a final whitespace, and
`(UT)`; returns the capture (run minus its final whitespace). -/
def bennuMatchAt (s : List Char) : Option (List Char) :=
  (eatLitCI "earliest".data s).bind (fun s1 =>
  (eatWs1 s1).bind (fun s2 =>
  (eatLitCI "available".data s2).bind (fun s3 =>
  (eatWs1 s3).bind (fun s4 =>
  (eatLitCI "date".data s4).bind (fun s5 =>
  (eatWs1 s5).bind (fun s6 =>
  (eatLitCI "is".data s6).bind (fun s7 =>
  (eatWs1 s7).bind (fun s8 =>
    if decide (2 ≤ (s8.takeWhile (fun c => clsChar c)).length)
        && (match (s8.takeWhile (fun c => clsChar c)).getLast? with
            | some c => wsChar c
            | none => false)
        && (eatLitCI "(ut)".data
            (s8.drop (s8.takeWhile (fun c => clsChar c)).length)).isSome then
      some ((s8.takeWhile (fun c => clsChar c)).dropLast)
    else none))))))))

/-- `re.search` for the bennu pattern: first matching position. -/
def bennuEarliestSearch : List Char → Option (List Char)
  | [] => bennuMatchAt []
  | c :: rest =>
      match bennuMatchAt (c :: rest) with
      | some cap => some cap
      | none => bennuEarliestSearch rest

/-- Numeric value of a digit character. -/
def digitVal (c : Char) : ℕ := c.toNat - 48

/-- strptime `%Y`: exactly four digits. -/
def eatYear4 : List Char → Option (ℕ × List Char)
  | a :: b :: c :: d :: rest =>
      if a.isDigit ∧ b.isDigit ∧ c.isDigit ∧ d.isDigit then
        some (((digitVal a * 10 + digitVal b) * 10 + digitVal c) * 10 + digitVal d, rest)
      else none
  | _ => none

/-- strptime `%b`: a month abbreviation, case-insensitively; also the
juno `MONTH` table, whose keys are the uppercase abbreviations. -/
def monAbbrevNum (a b c : Char) : Option ℕ :=
  match lowerC a, lowerC b, lowerC c with
  | 'j', 'a', 'n' => some 1
  | 'f', 'e', 'b' => some 2
  | 'm', 'a', 'r' => some 3
  | 'a', 'p', 'r' => some 4
  | 'm', 'a', 'y' => some 5
  | 'j', 'u', 'n' => some 6
  | 'j', 'u', 'l' => some 7
  | 'a', 'u', 'g' => some 8
  | 's', 'e', 'p' => some 9
  | 'o', 'c', 't' => some 10
  | 'n', 'o', 'v' => some 11
  | 'd', 'e', 'c' => some 12
  | _, _, _ => none

def eatMonthAbbrev : List Char → Option (ℕ × List Char)
  | a :: b :: c :: rest => (monAbbrevNum a b c).map (fun m => (m, rest))
  | _ => none

/-- A one-or-two digit field: the two-digit reading is preferred when its
value passes `ok2` (mirroring the alternation order of the `_strptime`
regexes for `%d`/`%H`/`%M`), else a single digit passing `ok1`. -/
def eatNum2 (ok2 ok1 : ℕ → Bool) : List Char → Option (ℕ × List Char)
  | a :: b :: rest =>
      if a.isDigit ∧ b.isDigit ∧ ok2 (digitVal a * 10 + digitVal b) then
        some (digitVal a * 10 + digitVal b, rest)
      else if a.isDigit ∧ ok1 (digitVal a) then some (digitVal a, b :: rest)
      else none
  | [a] => if a.isDigit ∧ ok1 (digitVal a) then some (digitVal a, []) else none
  | [] => none

/-- `datetime.strptime(s, "%Y-%b-%d %H:%M")`: the whole string must be
consumed; the format's space matches `\s+`; seconds default to zero. -/
def strptimeYbdHM (s : List Char) : Option DT :=
  (eatYear4 s).bind (fun p1 =>
  (eatLit ['-'] p1.2).bind (fun s2 =>
  (eatMonthAbbrev s2).bind (fun p3 =>
  (eatLit ['-'] p3.2).bind (fun s4 =>
  (eatNum2 (fun v => decide (1 ≤ v ∧ v ≤ 31)) (fun v => decide (1 ≤ v)) s4).bind (fun p5 =>
  (eatWs1 p5.2).bind (fun s6 =>
  (eatNum2 (fun v => decide (v ≤ 23)) (fun _ => true) s6).bind (fun p7 =>
  (eatLit [':'] p7.2).bind (fun s8 =>
  (eatNum2 (fun v => decide (v ≤ 59)) (fun _ => true) s8).bind (fun p9 =>
    if p9.2 = [] then some ⟨p1.1, p3.1, p5.1, p7.1, p9.1, 0⟩ else none)))))))))

/-- Python `str.strip()` on ASCII text. -/
def stripWs (cs : List Char) : List Char :=
  ((cs.dropWhile (fun c => wsChar c)).reverse.dropWhile (fun c => wsChar c)).reverse

/-- bennu `parse_earliest_from_error`: search, strip the capture, parse it
with `%Y-%b-%d %H:%M`; a `ValueError` (parse failure) yields `None`.
No second is ever added. -/
def bennuParseEarliest (msg : List Char) : Option DT :=
  match bennuEarliestSearch msg with
  | none => none
  | some cap => strptimeYbdHM (stripWs cap)

/-- The tail of the juno pattern after the seconds group: the optional
`(?:\\.(\\d+))?` — a literal backslash, any character, a backslash and a
nonempty run of `d`s — followed by the literal ` UT`. -/
def junoTailOk (s : List Char) : Bool :=
  prefixB " UT".data s ||
    (match s with
     | b1 :: _ :: b2 :: rest =>
         b1 == '\\' && b2 == '\\' &&
           (decide (1 ≤ (rest.takeWhile (fun x => x = 'd')).length)
             && prefixB " UT".data (rest.drop (rest.takeWhile (fun x => x = 'd')).length))
     | _ => false)

/-- The juno `EARLIEST_RE` tried at one position.  Because the raw-string
pattern doubles every backslash, each `\\d{n}` is a literal backslash
followed by `n` letter-`d`s, and `\\.` is a backslash followed by any
character; only the `[A-Z]{3}` month group varies, and it is returned. -/
def junoMatchAt (s : List Char) : Option (List Char) :=
  (eatLit "prior to A".data s).bind (fun s1 =>
  (eatLit ['\\'] s1).bind (fun s2 =>
  (eatAny s2).bind (fun p3 =>
  (eatLit ['D', '\\'] p3.2).bind (fun s4 =>
  (eatAny s4).bind (fun p5 =>
  (eatLit [' ', '\\', 'd', 'd', 'd', 'd', '-'] p5.2).bind (fun s6 =>
  (eatUpper3 s6).bind (fun p7 =>
  (eatLit ['-', '\\', 'd', 'd', ' ', '\\', 'd', 'd', ':', '\\', 'd', 'd', ':',
      '\\', 'd', 'd'] p7.2).bind (fun s8 =>
    if junoTailOk s8 then some p7.1 else none))))))))

/-- `re.search` for the juno pattern. -/
def junoEarliestSearch : List Char → Option (List Char)
  | [] => junoMatchAt []
  | c :: rest =>
      match junoMatchAt (c :: rest) with
      | some mon => some mon
      | none => junoEarliestSearch rest

/-- Python `int()` on a string of digits; anything else (in particular a
backslash) raises `ValueError`, modelled by `none`. -/
def strToNat (cs : List Char) : Option ℕ :=
  if cs ≠ [] ∧ cs.all Char.isDigit then
    some (cs.foldl (fun a c => a * 10 + digitVal c) 0)
  else none

/-- `MONTH.get(mon, 1)`. -/
def monthLookup : List Char → ℕ
  | [a, b, c] => (monAbbrevNum a b c).getD 1
  | _ => 1

def isLeap (y : ℕ) : Bool := decide ((y % 4 = 0 ∧ y % 100 ≠ 0) ∨ y % 400 = 0)

def daysInMonth (y m : ℕ) : ℕ :=
  if m = 2 then (if isLeap y then 29 else 28)
  else if m = 4 ∨ m = 6 ∨ m = 9 ∨ m = 11 then 30 else 31

/-- `dt + timedelta_seconds(1)` with calendar carry. -/
def addOneSecond (t : DT) : DT :=
  if t.second + 1 ≤ 59 then ⟨t.year, t.month, t.day, t.hour, t.minute, t.second + 1⟩
  else if t.minute + 1 ≤ 59 then ⟨t.year, t.month, t.day, t.hour, t.minute + 1, 0⟩
  else if t.hour + 1 ≤ 23 then ⟨t.year, t.month, t.day, t.hour + 1, 0, 0⟩
  else if t.day + 1 ≤ daysInMonth t.year t.month then ⟨t.year, t.month, t.day + 1, 0, 0, 0⟩
  else if t.month + 1 ≤ 12 then ⟨t.year, t.month + 1, 1, 0, 0, 0⟩
  else ⟨t.year + 1, 1, 1, 0, 0, 0⟩

/-- juno `parse_earliest_from_error`: on no match, `None`; on a match,
`int(yyyy)` (and the other numeric groups) are applied to the captured
text, which the pattern forces to be `\dddd` resp. `\dd` — the uncaught
`ValueError` is the `.error ()` outcome.  The success arm mirrors the
remaining source line (`MONTH.get` and the one-second shift) but is
unreachable. -/
def junoParseEarliest (err : List Char) : Except Unit (Option DT) :=
  match junoEarliestSearch err with
  | none => .ok none
  | some mon =>
      match strToNat ['\\', 'd', 'd', 'd', 'd'], strToNat ['\\', 'd', 'd'],
          strToNat ['\\', 'd', 'd'], strToNat ['\\', 'd', 'd'],
          strToNat ['\\', 'd', 'd'] with
      | some y, some d, some h, some mi, some sec =>
          .ok (some (addOneSecond ⟨y, monthLookup mon, d, h, mi, sec⟩))
      | _, _, _, _, _ => .error ()

/-! The theorems. -/

theorem qden_cast_pos (q : ℚ) : (0 : ℚ) < (q.den : ℚ) := by
  exact_mod_cast q.pos

theorem qmul_den_eq_num (q : ℚ) : q * (q.den : ℚ) = (q.num : ℚ) := by
  have hd : ((q.den : ℚ)) ≠ 0 := ne_of_gt (qden_cast_pos q)
  have h := Rat.num_div_den q
  nth_rewrite 1 [← h]
  rw [div_mul_cancel₀ _ hd]

theorem qfloor_cast_le (q : ℚ) : (qfloor q : ℚ) ≤ q := by
  have hd : (0 : ℤ) < (q.den : ℤ) := Int.ofNat_pos.mpr q.pos
  have hmod : 0 ≤ q.num % (q.den : ℤ) := Int.emod_nonneg _ (ne_of_gt hd)
  have hdecomp : (q.den : ℤ) * (q.num / (q.den : ℤ)) + q.num % (q.den : ℤ) = q.num :=
    Int.ediv_add_emod q.num (q.den : ℤ)
  have hdQ : (0 : ℚ) < (q.den : ℚ) := qden_cast_pos q
  rw [← mul_le_mul_right hdQ, qmul_den_eq_num]
  have h1 : ((q.den : ℤ) * (q.num / (q.den : ℤ)) : ℤ) ≤ q.num := by omega
  calc (qfloor q : ℚ) * (q.den : ℚ)
      = (((q.den : ℤ) * (q.num / (q.den : ℤ)) : ℤ) : ℚ) := by unfold qfloor; push_cast; ring
    _ ≤ (q.num : ℚ) := by exact_mod_cast h1

theorem lt_qfloor_add_one (q : ℚ) : q < qfloor q + 1 := by
  have hd : (0 : ℤ) < (q.den : ℤ) := Int.ofNat_pos.mpr q.pos
  have hmod : q.num % (q.den : ℤ) < (q.den : ℤ) := Int.emod_lt_of_pos _ hd
  have hdecomp : (q.den : ℤ) * (q.num / (q.den : ℤ)) + q.num % (q.den : ℤ) = q.num :=
    Int.ediv_add_emod q.num (q.den : ℤ)
  have hdQ : (0 : ℚ) < (q.den : ℚ) := qden_cast_pos q
  rw [← mul_lt_mul_right hdQ, qmul_den_eq_num]
  have h1 : q.num < ((qfloor q + 1) * (q.den : ℤ) : ℤ) := by
    unfold qfloor; nlinarith [hdecomp, hmod]
  calc (q.num : ℚ) < (((qfloor q + 1) * (q.den : ℤ) : ℤ) : ℚ) := by exact_mod_cast h1
    _ = (qfloor q + 1 : ℚ) * (q.den : ℚ) := by push_cast; ring

theorem qfloor_eq_floor (q : ℚ) : qfloor q = ⌊q⌋ := by
  refine le_antisymm (Int.le_floor.mpr (qfloor_cast_le q)) ?_
  have h1 : (⌊q⌋ : ℚ) ≤ q := Int.floor_le q
  have h2 : q < qfloor q + 1 := lt_qfloor_add_one q
  have h3 : (⌊q⌋ : ℚ) < ((qfloor q + 1 : ℤ) : ℚ) := by push_cast; linarith
  have := Int.cast_lt.mp h3
  omega

theorem qceil_eq_ceil (q : ℚ) : qceil q = ⌈q⌉ := by
  unfold qceil
  rw [qfloor_eq_floor, Int.floor_neg, neg_neg]

theorem kRangeAux_length (a : ℤ) (n : ℕ) : (kRangeAux a n).length = n := by
  induction n generalizing a with
  | zero => rfl
  | succ m ih => simp [kRangeAux, ih]

theorem kRangeAux_mem {a : ℤ} {n : ℕ} {k : ℤ} :
    k ∈ kRangeAux a n ↔ a ≤ k ∧ k < a + n := by
  induction n generalizing a with
  | zero =>
    simp only [kRangeAux, List.not_mem_nil, false_iff, not_and, not_lt]
    intro _
    omega
  | succ m ih =>
    simp only [kRangeAux, List.mem_cons, ih]
    omega

theorem kRangeAux_getLast? (a : ℤ) (n : ℕ) (h : 0 < n) :
    (kRangeAux a n).getLast? = some (a + n - 1) := by
  induction n generalizing a with
  | zero => omega
  | succ m ih =>
    cases m with
    | zero => simp [kRangeAux]
    | succ p =>
      rw [show kRangeAux a (p + 1 + 1) = a :: kRangeAux (a + 1) (p + 1) from rfl]
      rw [show kRangeAux (a + 1) (p + 1) = (a + 1) :: kRangeAux (a + 1 + 1) p from rfl]
      rw [List.getLast?_cons_cons]
      have hlast := ih (a + 1) (by omega)
      rw [show kRangeAux (a + 1) (p + 1) = (a + 1) :: kRangeAux (a + 1 + 1) p from rfl] at hlast
      rw [hlast]
      congr 1
      push_cast
      ring

theorem kRangeAux_append (a : ℤ) (m n : ℕ) :
    kRangeAux a (m + n) = kRangeAux a m ++ kRangeAux (a + m) n := by
  induction m generalizing a with
  | zero => simp [kRangeAux]
  | succ p ih =>
    have h1 : p + 1 + n = (p + n) + 1 := by omega
    rw [h1]
    rw [show kRangeAux a ((p + n) + 1) = a :: kRangeAux (a + 1) (p + n) from rfl]
    rw [show kRangeAux a (p + 1) = a :: kRangeAux (a + 1) p from rfl]
    rw [ih (a + 1)]
    simp only [List.cons_append]
    congr 3
    push_cast
    ring

theorem kRangeAux_dropWhile_le (m : ℤ) (a : ℤ) (n : ℕ) (ha : a ≤ m + 1) :
    (kRangeAux a n).dropWhile (fun k => decide (k ≤ m)) =
      kRangeAux (m + 1) (((a : ℤ) + n - (m + 1)).toNat) := by
  induction n generalizing a with
  | zero =>
    simp only [kRangeAux, List.dropWhile_nil]
    have h0 : ((a : ℤ) + ((0 : ℕ) : ℤ) - (m + 1)).toNat = 0 := by omega
    rw [h0]
    rfl
  | succ p ih =>
    rw [show kRangeAux a (p + 1) = a :: kRangeAux (a + 1) p from rfl, List.dropWhile_cons]
    by_cases ham : a ≤ m
    · rw [if_pos (by simpa using ham)]
      rw [ih (a + 1) (by omega)]
      congr 1
      push_cast
      omega
    · rw [if_neg (by simpa using ham)]
      have haeq : a = m + 1 := by omega
      subst haeq
      have hn : ((m + 1 : ℤ) + ((p + 1 : ℕ) : ℤ) - (m + 1)).toNat = p + 1 := by
        push_cast
        omega
      rw [hn]
      rfl

theorem kRange_eq_nil (a b : ℤ) (h : b < a) : kRange a b = [] := by
  unfold kRange
  have : (b + 1 - a).toNat = 0 := by omega
  rw [this]
  rfl

theorem kRange_cons (a b : ℤ) (h : a ≤ b) : kRange a b = a :: kRange (a + 1) b := by
  unfold kRange
  have h1 : (b + 1 - a).toNat = (b + 1 - (a + 1)).toNat + 1 := by omega
  rw [h1]
  rfl

theorem kRange_length (a b : ℤ) : (kRange a b).length = (b + 1 - a).toNat := by
  unfold kRange; exact kRangeAux_length _ _

theorem kRange_ne_nil (a b : ℤ) (h : a ≤ b) : kRange a b ≠ [] := by
  rw [kRange_cons a b h]; simp

theorem mem_kRange {a b k : ℤ} : k ∈ kRange a b ↔ a ≤ k ∧ k ≤ b := by
  unfold kRange
  rw [kRangeAux_mem]
  omega

theorem kRange_getLast? (a b : ℤ) (h : a ≤ b) : (kRange a b).getLast? = some b := by
  unfold kRange
  rw [kRangeAux_getLast? _ _ (by omega)]
  congr 1
  omega

theorem kRange_append (a m b : ℤ) (h1 : a ≤ m + 1) (h2 : m ≤ b) :
    kRange a b = kRange a m ++ kRange (m + 1) b := by
  unfold kRange
  have hsplit : (b + 1 - a).toNat = (m + 1 - a).toNat + (b - m).toNat := by omega
  rw [hsplit, kRangeAux_append]
  congr 2
  · omega
  · omega

theorem kRange_dropWhile_le (a b m : ℤ) (ha : a ≤ m + 1) :
    (kRange a b).dropWhile (fun k => decide (k ≤ m)) = kRange (m + 1) b := by
  unfold kRange
  rw [kRangeAux_dropWhile_le m a _ ha]
  by_cases hab : a ≤ b + 1
  · congr 1
    omega
  · have h0 : (b + 1 - a).toNat = 0 := by omega
    rw [h0]
    have h1 : ((a : ℤ) + ((0 : ℕ) : ℤ) - (m + 1)).toNat = 0 := by omega
    rw [h1]
    have h2 : (b + 1 - (m + 1)).toNat = 0 := by omega
    rw [h2]

theorem drop_length_takeWhile {α : Type} (p : α → Bool) (l : List α) :
    l.drop (l.takeWhile p).length = l.dropWhile p := by
  have h1 : (l.takeWhile p ++ l.dropWhile p).drop (l.takeWhile p).length = l.dropWhile p :=
    List.drop_left _ _
  rwa [List.takeWhile_append_dropWhile] at h1

/-! ## Block (6-tuple) helpers for flattened position/velocity lists -/

theorem flatten_length_mul {α : Type} (g : ℤ → List α) (l : List ℤ)
    (hg : ∀ k, (g k).length = 6) : ((l.map g).flatten).length = l.length * 6 := by
  induction l with
  | nil => simp
  | cons x xs ih =>
    simp only [List.map_cons, List.flatten_cons, List.length_append, ih, hg, List.length_cons]
    ring

theorem flatten_drop_blocks {α : Type} (g : ℤ → List α) (hg : ∀ k, (g k).length = 6) :
    ∀ (n : ℕ) (l : List ℤ),
      ((l.map g).flatten).drop (n * 6) = ((l.drop n).map g).flatten := by
  intro n
  induction n with
  | zero => intro l; simp
  | succ p ih =>
    intro l
    cases l with
    | nil => simp
    | cons x xs =>
      simp only [List.map_cons, List.flatten_cons, List.drop_succ_cons]
      have h1 : (p + 1) * 6 = (g x).length + p * 6 := by rw [hg]; ring
      rw [h1, List.drop_append, ih]

theorem eps_pos : (0 : ℚ) < eps := by norm_num [eps]

theorem gridKs_mem (t0 d : ℚ) (hd : 0 < d) (a b : ℚ) (k : ℤ) :
    k ∈ gridKs t0 d a b ↔ a ≤ gridPt t0 d k ∧ gridPt t0 d k ≤ b := by
  unfold gridKs gridPt
  rw [mem_kRange, qceil_eq_ceil, qfloor_eq_floor, Int.ceil_le, Int.le_floor]
  rw [div_le_iff hd, le_div_iff hd]
  constructor
  · rintro ⟨h1, h2⟩
    constructor <;> linarith
  · rintro ⟨h1, h2⟩
    constructor <;> linarith

/-- Pointwise characterisation of the stitch tolerance test on grid
samples: a grid instant is at most `last + eps` exactly when its index is
at most `last`'s index (the tolerance is smaller than the step). -/
theorem grid_le_iff (t0 d : ℚ) (hd : 0 < d) (he : eps < d) (m k : ℤ) :
    (gridPt t0 d k ≤ gridPt t0 d m + eps) ↔ k ≤ m := by
  unfold gridPt
  constructor
  · intro h
    by_contra hk
    push_neg at hk
    have h1 : (m : ℚ) + 1 ≤ (k : ℚ) := by exact_mod_cast hk
    nlinarith [eps_pos]
  · intro h
    have h1 : (k : ℚ) ≤ (m : ℚ) := by exact_mod_cast h
    nlinarith [eps_pos]

theorem junoStitch_eq_nil (accPv t pv : List ℚ) : junoStitch [] accPv t pv = (t, pv) := rfl

theorem junoStitch_eq_last (accT accPv t pv : List ℚ) (last : ℚ)
    (h : accT.getLast? = some last) :
    junoStitch accT accPv t pv =
      (if (t.takeWhile (fun x => decide (x ≤ last + eps))).length < t.length then
        (accT ++ t.drop (t.takeWhile (fun x => decide (x ≤ last + eps))).length,
         accPv ++ pv.drop ((t.takeWhile (fun x => decide (x ≤ last + eps))).length * 6))
      else (accT, accPv)) := by
  unfold junoStitch
  rw [h]

theorem qdiv_le_qdiv (d : ℚ) (hd : 0 < d) {x y : ℚ} (h : x ≤ y) : x / d ≤ y / d := by
  rw [div_le_div_iff hd hd]
  nlinarith

/-- Core stitching fact on grid windows, stated on index ranges: appending
window `[aC..mS]` onto an accumulated series ending at index `mC` drops
exactly the indices up to `mC` and extends the series to `[k0..mS]`. -/
theorem junoStitch_ranges (t0 d : ℚ) (pvOf : ℤ → List ℚ) (hd : 0 < d) (he : eps < d)
    (hpv : ∀ k, (pvOf k).length = 6) (k0 mC aC mS : ℤ)
    (hne : k0 ≤ mC) (hACle : aC ≤ mC + 1) (hL1 : mC ≤ mS) :
    junoStitch ((kRange k0 mC).map (gridPt t0 d)) (((kRange k0 mC).map pvOf).flatten)
      ((kRange aC mS).map (gridPt t0 d)) (((kRange aC mS).map pvOf).flatten)
      = ((kRange k0 mS).map (gridPt t0 d), ((kRange k0 mS).map pvOf).flatten) := by
  have hlast : ((kRange k0 mC).map (gridPt t0 d)).getLast? = some (gridPt t0 d mC) := by
    rw [List.getLast?_map, kRange_getLast? _ _ hne]
    rfl
  rw [junoStitch_eq_last _ _ _ _ _ hlast]
  have hpred : ((fun x => decide (x ≤ gridPt t0 d mC + eps)) ∘ (gridPt t0 d))
      = (fun k : ℤ => decide (k ≤ mC)) := by
    funext k
    simp only [Function.comp_apply]
    rw [decide_eq_decide]
    exact grid_le_iff t0 d hd he mC k
  have hidx : (((kRange aC mS).map (gridPt t0 d)).takeWhile
        (fun x => decide (x ≤ gridPt t0 d mC + eps))).length
      = ((kRange aC mS).takeWhile (fun k : ℤ => decide (k ≤ mC))).length := by
    rw [List.takeWhile_map, hpred, List.length_map]
  have hdropKs : (kRange aC mS).drop
        ((kRange aC mS).takeWhile (fun k : ℤ => decide (k ≤ mC))).length
      = kRange (mC + 1) mS := by
    rw [drop_length_takeWhile, kRange_dropWhile_le _ _ _ hACle]
  have hdropT : ((kRange aC mS).map (gridPt t0 d)).drop
        (((kRange aC mS).map (gridPt t0 d)).takeWhile
          (fun x => decide (x ≤ gridPt t0 d mC + eps))).length
      = (kRange (mC + 1) mS).map (gridPt t0 d) := by
    rw [drop_length_takeWhile, List.dropWhile_map, hpred, kRange_dropWhile_le _ _ _ hACle]
  have hsplitlen : (((kRange aC mS).takeWhile (fun k : ℤ => decide (k ≤ mC))).length : ℕ)
        + ((kRange aC mS).dropWhile (fun k : ℤ => decide (k ≤ mC))).length
      = (kRange aC mS).length := by
    rw [← List.length_append, List.takeWhile_append_dropWhile]
  have hdw : (kRange aC mS).dropWhile (fun k : ℤ => decide (k ≤ mC)) = kRange (mC + 1) mS :=
    kRange_dropWhile_le _ _ _ hACle
  by_cases hkept : mC + 1 ≤ mS
  · -- new samples remain after the drop
    have hlt : (((kRange aC mS).map (gridPt t0 d)).takeWhile
          (fun x => decide (x ≤ gridPt t0 d mC + eps))).length
        < ((kRange aC mS).map (gridPt t0 d)).length := by
      rw [hidx, List.length_map]
      have hk1 : 0 < (kRange (mC + 1) mS).length := by
        rw [kRange_length]
        omega
      rw [hdw] at hsplitlen
      omega
    rw [if_pos hlt]
    have happend : kRange k0 mS = kRange k0 mC ++ kRange (mC + 1) mS :=
      kRange_append k0 mC mS (by omega) hL1
    congr 1
    · rw [hdropT, happend, List.map_append]
    · rw [hidx, flatten_drop_blocks pvOf hpv _ _, hdropKs, happend, List.map_append,
        List.flatten_append]
  · -- the whole window is at or before the accumulated end: nothing appended
    have hmSeq : mS = mC := by omega
    have hnil : kRange (mC + 1) mS = [] := kRange_eq_nil _ _ (by omega)
    have hlen0 : ((kRange aC mS).dropWhile (fun k : ℤ => decide (k ≤ mC))).length = 0 := by
      rw [hdw, hnil]
      rfl
    have hnlt : ¬ (((kRange aC mS).map (gridPt t0 d)).takeWhile
          (fun x => decide (x ≤ gridPt t0 d mC + eps))).length
        < ((kRange aC mS).map (gridPt t0 d)).length := by
      rw [hidx, List.length_map]
      omega
    rw [if_neg hnlt]
    rw [hmSeq]

/-- Stitching two adjacent grid windows extends the accumulated grid series
exactly to the union window. -/
theorem junoStitch_grid (t0 d : ℚ) (pvOf : ℤ → List ℚ) (hd : 0 < d) (he : eps < d)
    (hpv : ∀ k, (pvOf k).length = 6) (start cur cs : ℚ) (h1 : start ≤ cur) (h2 : cur ≤ cs) :
    junoStitch (gridT t0 d start cur) (gridPV t0 d pvOf start cur)
      (gridT t0 d cur cs) (gridPV t0 d pvOf cur cs)
      = (gridT t0 d start cs, gridPV t0 d pvOf start cs) := by
  have hL3 : qceil ((start - t0) / d) ≤ qceil ((cur - t0) / d) := by
    rw [qceil_eq_ceil, qceil_eq_ceil]
    exact Int.ceil_le_ceil (qdiv_le_qdiv d hd (by linarith))
  have hL1 : qfloor ((cur - t0) / d) ≤ qfloor ((cs - t0) / d) := by
    rw [qfloor_eq_floor, qfloor_eq_floor]
    exact Int.floor_le_floor (qdiv_le_qdiv d hd (by linarith))
  have hL2 : qceil ((cur - t0) / d) ≤ qfloor ((cur - t0) / d) + 1 := by
    rw [qceil_eq_ceil, qfloor_eq_floor]
    exact Int.ceil_le_floor_add_one _
  by_cases hne : qceil ((start - t0) / d) ≤ qfloor ((cur - t0) / d)
  · have hr := junoStitch_ranges t0 d pvOf hd he hpv
      (qceil ((start - t0) / d)) (qfloor ((cur - t0) / d))
      (qceil ((cur - t0) / d)) (qfloor ((cs - t0) / d)) hne hL2 hL1
    simpa only [gridT, gridPV, gridKs] using hr
  · have hnil : kRange (qceil ((start - t0) / d)) (qfloor ((cur - t0) / d)) = [] :=
      kRange_eq_nil _ _ (by omega)
    have haeq : qceil ((cur - t0) / d) = qceil ((start - t0) / d) := by omega
    simp only [gridT, gridPV, gridKs, hnil, List.map_nil, List.flatten_nil, haeq]
    exact junoStitch_eq_nil _ _ _

/-- Invariant run of the juno chunk loop against the grid-faithful service:
starting from an accumulated series covering `[start, cur]`, the loop
finishes (given enough fuel) with the grid series over `[start, stop]`. -/
theorem junoLoopFuel_grid (t0 d : ℚ) (pvOf : ℤ → List ℚ) (span start stop : ℚ)
    (hd : 0 < d) (he : eps < d) (hpv : ∀ k, (pvOf k).length = 6) (hspan : 0 < span) :
    ∀ (fuel : ℕ) (cur : ℚ), start ≤ cur → cur ≤ stop → stop - cur ≤ fuel * span →
      junoLoopFuel (gridFetch t0 d pvOf) stop span fuel cur
          (gridT t0 d start cur) (gridPV t0 d pvOf start cur)
        = some (.ok (gridT t0 d start stop, gridPV t0 d pvOf start stop)) := by
  intro fuel
  induction fuel with
  | zero =>
    intro cur hc1 hc2 hc3
    have hle : stop ≤ cur := by
      have : ((0 : ℕ) : ℚ) * span = 0 := by norm_num
      rw [this] at hc3
      linarith
    have hceq : cur = stop := le_antisymm hc2 hle
    subst hceq
    simp [junoLoopFuel, lt_irrefl]
  | succ n ih =>
    intro cur hc1 hc2 hc3
    by_cases hlt : cur < stop
    · have hcsle : cur ≤ (if cur + span > stop then stop else cur + span) := by
        by_cases hgt : cur + span > stop
        · simp only [hgt, if_true]; linarith
        · simp only [hgt, if_false]; linarith
      have hcsstop : (if cur + span > stop then stop else cur + span) ≤ stop := by
        by_cases hgt : cur + span > stop
        · simp only [hgt, if_true]; linarith
        · simp only [hgt, if_false]; linarith
      have hcslt : cur < (if cur + span > stop then stop else cur + span) := by
        by_cases hgt : cur + span > stop
        · simp only [hgt, if_true]; linarith
        · simp only [hgt, if_false]; linarith
      have hfuel' : stop - (if cur + span > stop then stop else cur + span) ≤ n * span := by
        by_cases hgt : cur + span > stop
        · simp only [hgt, if_true]
          have : (0 : ℚ) ≤ n * span := by positivity
          linarith
        · simp only [hgt, if_false]
          have hns : ((n + 1 : ℕ) : ℚ) * span = (n : ℚ) * span + span := by push_cast; ring
          rw [hns] at hc3
          linarith
      simp only [junoLoopFuel, if_pos hlt, gridFetch]
      rw [junoStitch_grid t0 d pvOf hd he hpv start cur _ hc1 hcsle]
      rw [if_neg (by intro hcc; rw [hcc] at hcslt; exact lt_irrefl _ hcslt)]
      exact ih _ (le_trans hc1 hcsle) hcsstop hfuel'
    · have hceq : cur = stop := le_antisymm hc2 (by linarith)
      subst hceq
      simp [junoLoopFuel, lt_irrefl]

/-- The juno chunk loop started on an empty accumulator, against the
grid-faithful service, produces the grid series of the whole query. -/
theorem junoLoopFuel_grid_init (t0 d : ℚ) (pvOf : ℤ → List ℚ) (span start stop : ℚ)
    (hd : 0 < d) (he : eps < d) (hpv : ∀ k, (pvOf k).length = 6) (hspan : 0 < span)
    (fuel : ℕ) (hss : start < stop) (hfuel : stop - start ≤ fuel * span) :
    junoLoopFuel (gridFetch t0 d pvOf) stop span fuel start [] []
      = some (.ok (gridT t0 d start stop, gridPV t0 d pvOf start stop)) := by
  have hf0 : fuel ≠ 0 := by
    rintro rfl
    have : ((0 : ℕ) : ℚ) * span = 0 := by norm_num
    rw [this] at hfuel
    linarith
  obtain ⟨m, rfl⟩ : ∃ m, fuel = m + 1 := ⟨fuel - 1, by omega⟩
  have hcsle : start ≤ (if start + span > stop then stop else start + span) := by
    by_cases hgt : start + span > stop
    · simp only [hgt, if_true]; linarith
    · simp only [hgt, if_false]; linarith
  have hcsstop : (if start + span > stop then stop else start + span) ≤ stop := by
    by_cases hgt : start + span > stop
    · simp only [hgt, if_true]; linarith
    · simp only [hgt, if_false]; linarith
  have hcslt : start < (if start + span > stop then stop else start + span) := by
    by_cases hgt : start + span > stop
    · simp only [hgt, if_true]; linarith
    · simp only [hgt, if_false]; linarith
  have hfuel' : stop - (if start + span > stop then stop else start + span) ≤ m * span := by
    by_cases hgt : start + span > stop
    · simp only [hgt, if_true]
      have : (0 : ℚ) ≤ m * span := by positivity
      linarith
    · simp only [hgt, if_false]
      have hns : ((m + 1 : ℕ) : ℚ) * span = (m : ℚ) * span + span := by push_cast; ring
      rw [hns] at hfuel
      linarith
  simp only [junoLoopFuel, if_pos hss, gridFetch]
  rw [junoStitch_eq_nil]
  rw [if_neg (by intro hcc; rw [hcc] at hcslt; exact lt_irrefl _ hcslt)]
  exact junoLoopFuel_grid t0 d pvOf span start stop hd he hpv hspan m _
    (le_trans (le_refl start) hcsle |>.trans (le_refl _) |>.trans (le_refl _) |>.trans (le_refl _)
      |>.trans (le_refl _) |>.trans (le_refl _)) hcsstop hfuel'

/-- A grid series over a window with at least two indices forces the query
range to be nondegenerate. -/
theorem gridT_two_le_lt (t0 d start stop : ℚ) (hd : 0 < d)
    (h2 : 2 ≤ (gridT t0 d start stop).length) : start < stop := by
  have hk : qceil ((start - t0) / d) + 1 ≤ qfloor ((stop - t0) / d) := by
    have hlen := h2
    simp only [gridT, gridKs, List.length_map, kRange_length] at hlen
    omega
  have hx1 : (start - t0) / d ≤ (qceil ((start - t0) / d) : ℚ) := by
    rw [qceil_eq_ceil]; exact Int.le_ceil _
  have hx2 : ((qfloor ((stop - t0) / d) : ℤ) : ℚ) ≤ (stop - t0) / d := by
    rw [qfloor_eq_floor]; exact Int.floor_le _
  have hcast : (qceil ((start - t0) / d) : ℚ) + 1 ≤ (qfloor ((stop - t0) / d) : ℚ) := by
    exact_mod_cast hk
  have hdd : (start - t0) / d + 1 ≤ (stop - t0) / d := by linarith
  have h3 := mul_le_mul_of_nonneg_right hdd (le_of_lt hd)
  rw [add_mul, one_mul, div_mul_cancel₀ _ (ne_of_gt hd), div_mul_cancel₀ _ (ne_of_gt hd)] at h3
  linarith

/-- juno `horizons_vectors_chunked` against the grid-faithful service:
assembling by chunks yields exactly the grid series over `[start, stop]`,
i.e. the series a single unbounded window request would return. -/
theorem junoChunked_grid (t0 d : ℚ) (pvOf : ℤ → List ℚ) (span start stop : ℚ) (fuel : ℕ)
    (hd : 0 < d) (he : eps < d) (hpv : ∀ k, (pvOf k).length = 6) (hspan : 0 < span)
    (h2 : 2 ≤ (gridT t0 d start stop).length)
    (hfuel : stop - start ≤ fuel * span) :
    junoChunkedFuel (gridFetch t0 d pvOf) start stop span fuel
      = some (.ok (gridT t0 d start stop, gridPV t0 d pvOf start stop)) := by
  have hss : start < stop := gridT_two_le_lt t0 d start stop hd h2
  unfold junoChunkedFuel
  rw [junoLoopFuel_grid_init t0 d pvOf span start stop hd he hpv hspan fuel hss hfuel]
  show some (junoFinal (gridT t0 d start stop, gridPV t0 d pvOf start stop))
      = some (Except.ok (gridT t0 d start stop, gridPV t0 d pvOf start stop))
  congr 1
  unfold junoFinal
  rw [if_neg]
  push_neg
  constructor
  · exact h2
  · show (gridPV t0 d pvOf start stop).length = (gridT t0 d start stop).length * 6
    unfold gridPV gridT
    rw [flatten_length_mul pvOf _ hpv, List.length_map]

theorem explorerLoopFuel_grid (t0 d : ℚ) (pvOf : ℤ → List ℚ) (span start stop : ℚ)
    (hd : 0 < d) (he : eps < d) (hpv : ∀ k, (pvOf k).length = 6) (hspan : 0 < span) :
    ∀ (fuel : ℕ) (cur : ℚ), start ≤ cur → cur ≤ stop → stop - cur ≤ fuel * span →
      explorerLoopFuel (gridFetchOk t0 d pvOf) stop span fuel cur
          (gridT t0 d start cur) (gridPV t0 d pvOf start cur)
        = some (gridT t0 d start stop, gridPV t0 d pvOf start stop) := by
  intro fuel
  induction fuel with
  | zero =>
    intro cur hc1 hc2 hc3
    have hle : stop ≤ cur := by
      have : ((0 : ℕ) : ℚ) * span = 0 := by norm_num
      rw [this] at hc3
      linarith
    have hceq : cur = stop := le_antisymm hc2 hle
    subst hceq
    simp [explorerLoopFuel, lt_irrefl]
  | succ n ih =>
    intro cur hc1 hc2 hc3
    by_cases hlt : cur < stop
    · have hcsle : cur ≤ (if cur + span > stop then stop else cur + span) := by
        by_cases hgt : cur + span > stop
        · simp only [hgt, if_true]; linarith
        · simp only [hgt, if_false]; linarith
      have hcsstop : (if cur + span > stop then stop else cur + span) ≤ stop := by
        by_cases hgt : cur + span > stop
        · simp only [hgt, if_true]; linarith
        · simp only [hgt, if_false]; linarith
      have hfuel' : stop - (if cur + span > stop then stop else cur + span) ≤ n * span := by
        by_cases hgt : cur + span > stop
        · simp only [hgt, if_true]
          have : (0 : ℚ) ≤ n * span := by positivity
          linarith
        · simp only [hgt, if_false]
          have hns : ((n + 1 : ℕ) : ℚ) * span = (n : ℚ) * span + span := by push_cast; ring
          rw [hns] at hc3
          linarith
      simp only [explorerLoopFuel, if_pos hlt, gridFetchOk]
      rw [junoStitch_grid t0 d pvOf hd he hpv start cur _ hc1 hcsle]
      exact ih _ (le_trans hc1 hcsle) hcsstop hfuel'
    · have hceq : cur = stop := le_antisymm hc2 (by linarith)
      subst hceq
      simp [explorerLoopFuel, lt_irrefl]

theorem explorerChunked_grid (t0 d : ℚ) (pvOf : ℤ → List ℚ) (span start stop : ℚ) (fuel : ℕ)
    (hd : 0 < d) (he : eps < d) (hpv : ∀ k, (pvOf k).length = 6) (hspan : 0 < span)
    (h2 : 2 ≤ (gridT t0 d start stop).length)
    (hfuel : stop - start ≤ fuel * span) :
    explorerChunkedFuel (gridFetchOk t0 d pvOf) start stop span fuel
      = some (.ok (gridT t0 d start stop, gridPV t0 d pvOf start stop)) := by
  have hss : start < stop := gridT_two_le_lt t0 d start stop hd h2
  have hf0 : fuel ≠ 0 := by
    rintro rfl
    have : ((0 : ℕ) : ℚ) * span = 0 := by norm_num
    rw [this] at hfuel
    linarith
  obtain ⟨m, rfl⟩ : ∃ m, fuel = m + 1 := ⟨fuel - 1, by omega⟩
  have hcsle : start ≤ (if start + span > stop then stop else start + span) := by
    by_cases hgt : start + span > stop
    · simp only [hgt, if_true]; linarith
    · simp only [hgt, if_false]; linarith
  have hcsstop : (if start + span > stop then stop else start + span) ≤ stop := by
    by_cases hgt : start + span > stop
    · simp only [hgt, if_true]; linarith
    · simp only [hgt, if_false]; linarith
  have hfuel' : stop - (if start + span > stop then stop else start + span) ≤ m * span := by
    by_cases hgt : start + span > stop
    · simp only [hgt, if_true]
      have : (0 : ℚ) ≤ m * span := by positivity
      linarith
    · simp only [hgt, if_false]
      have hns : ((m + 1 : ℕ) : ℚ) * span = (m : ℚ) * span + span := by push_cast; ring
      rw [hns] at hfuel
      linarith
  unfold explorerChunkedFuel
  simp only [explorerLoopFuel, if_pos hss, gridFetchOk]
  rw [junoStitch_eq_nil]
  rw [explorerLoopFuel_grid t0 d pvOf span start stop hd he hpv hspan m _
    (le_trans le_rfl hcsle) hcsstop hfuel']
  show some (junoFinal (gridT t0 d start stop, gridPV t0 d pvOf start stop))
      = some (Except.ok (gridT t0 d start stop, gridPV t0 d pvOf start stop))
  congr 1
  unfold junoFinal
  rw [if_neg]
  push_neg
  constructor
  · exact h2
  · show (gridPV t0 d pvOf start stop).length = (gridT t0 d start stop).length * 6
    unfold gridPV gridT
    rw [flatten_length_mul pvOf _ hpv, List.length_map]

theorem bennuMergeStep_eq_some (tAll pvAll t pv : List ℚ) (last x : ℚ)
    (hl : tAll.getLast? = some last) (hh : t.head? = some x) :
    bennuMergeStep tAll pvAll t pv =
      if |x - last| < eps then (tAll ++ t.drop 1, pvAll ++ pv.drop 6)
      else (tAll ++ t, pvAll ++ pv) := by
  unfold bennuMergeStep
  rw [hl, hh]

theorem bennuMergeStep_eq_t_nil (tAll pvAll pv : List ℚ) :
    bennuMergeStep tAll pvAll [] pv = (tAll ++ [], pvAll ++ pv) := by
  unfold bennuMergeStep
  cases h : tAll.getLast? <;> rfl

theorem bennuMergeStep_eq_nil_acc (pvAll t pv : List ℚ) :
    bennuMergeStep [] pvAll t pv = ([] ++ t, pvAll ++ pv) := by
  unfold bennuMergeStep
  cases t <;> rfl

/-- Merging two adjacent grid windows in bennu's style also extends the
accumulated grid series exactly to the union window: the two windows share
at most the boundary instant, which is then dropped by the exact-equality
test. -/
theorem bennuMergeStep_grid (t0 d : ℚ) (pvOf : ℤ → List ℚ) (hd : 0 < d) (he : eps < d)
    (hpv : ∀ k, (pvOf k).length = 6) (start cur cs : ℚ) (h1 : start ≤ cur) (h2 : cur ≤ cs) :
    bennuMergeStep (gridT t0 d start cur) (gridPV t0 d pvOf start cur)
      (gridT t0 d cur cs) (gridPV t0 d pvOf cur cs)
      = (gridT t0 d start cs, gridPV t0 d pvOf start cs) := by
  have hL3 : qceil ((start - t0) / d) ≤ qceil ((cur - t0) / d) := by
    rw [qceil_eq_ceil, qceil_eq_ceil]
    exact Int.ceil_le_ceil (qdiv_le_qdiv d hd (by linarith))
  have hL1 : qfloor ((cur - t0) / d) ≤ qfloor ((cs - t0) / d) := by
    rw [qfloor_eq_floor, qfloor_eq_floor]
    exact Int.floor_le_floor (qdiv_le_qdiv d hd (by linarith))
  have hL2 : qceil ((cur - t0) / d) ≤ qfloor ((cur - t0) / d) + 1 := by
    rw [qceil_eq_ceil, qfloor_eq_floor]
    exact Int.ceil_le_floor_add_one _
  have hL4 : qfloor ((cur - t0) / d) ≤ qceil ((cur - t0) / d) := by
    rw [qceil_eq_ceil, qfloor_eq_floor]
    exact Int.floor_le_ceil _
  set k0 := qceil ((start - t0) / d) with hk0def
  set mC := qfloor ((cur - t0) / d) with hmCdef
  set aC := qceil ((cur - t0) / d) with haCdef
  set mS := qfloor ((cs - t0) / d) with hmSdef
  by_cases hne : k0 ≤ mC
  · -- accumulated series nonempty
    have hlast : (gridT t0 d start cur).getLast? = some (gridPt t0 d mC) := by
      simp only [gridT, gridKs, ← hk0def, ← hmCdef]
      rw [List.getLast?_map, kRange_getLast? _ _ hne]
      rfl
    by_cases hwin : aC ≤ mS
    · -- the new window is nonempty
      have hhead : (gridT t0 d cur cs).head? = some (gridPt t0 d aC) := by
        simp only [gridT, gridKs, ← haCdef, ← hmSdef]
        rw [kRange_cons _ _ hwin]
        rfl
      rw [bennuMergeStep_eq_some _ _ _ _ _ _ hlast hhead]
      have hsplit : aC = mC ∨ aC = mC + 1 := by omega
      rcases hsplit with hcase | hcase
      · -- shared boundary instant: exact equality, first sample dropped
        have habs : |gridPt t0 d aC - gridPt t0 d mC| < eps := by
          rw [hcase, sub_self, abs_zero]
          exact eps_pos
        rw [if_pos habs]
        have hdropT : (gridT t0 d cur cs).drop 1 = (kRange (mC + 1) mS).map (gridPt t0 d) := by
          simp only [gridT, gridKs, ← haCdef, ← hmSdef]
          rw [kRange_cons _ _ hwin, hcase]
          rfl
        have hdropPV : (gridPV t0 d pvOf cur cs).drop 6
            = ((kRange (mC + 1) mS).map pvOf).flatten := by
          simp only [gridPV, gridKs, ← haCdef, ← hmSdef]
          have hblocks := flatten_drop_blocks pvOf hpv 1 (kRange aC mS)
          norm_num at hblocks
          rw [hblocks, kRange_cons _ _ hwin, hcase]
          rfl
        rw [hdropT, hdropPV]
        have happend : kRange k0 mS = kRange k0 mC ++ kRange (mC + 1) mS :=
          kRange_append k0 mC mS (by omega) hL1
        simp only [gridT, gridPV, gridKs, ← hk0def, ← hmCdef, ← hmSdef, happend,
          List.map_append, List.flatten_append]
      · -- no shared instant: boundary off-grid, nothing dropped
        have habs : ¬ |gridPt t0 d aC - gridPt t0 d mC| < eps := by
          rw [hcase]
          have hv : gridPt t0 d (mC + 1) - gridPt t0 d mC = d := by
            unfold gridPt; push_cast; ring
          rw [hv, abs_of_pos hd]
          linarith
        rw [if_neg habs]
        have happend : kRange k0 mS = kRange k0 mC ++ kRange (mC + 1) mS :=
          kRange_append k0 mC mS (by omega) (by omega)
        simp only [gridT, gridPV, gridKs, ← hk0def, ← hmCdef, ← haCdef, ← hmSdef, happend,
          hcase, List.map_append, List.flatten_append]
    · -- the new window contains no grid point: nothing to merge
      have hnil : kRange aC mS = [] := kRange_eq_nil _ _ (by omega)
      have hmSeq : mS = mC := by omega
      have htnil : gridT t0 d cur cs = [] := by
        simp only [gridT, gridKs, ← haCdef, ← hmSdef, hnil, List.map_nil]
      have hpvnil : gridPV t0 d pvOf cur cs = [] := by
        simp only [gridPV, gridKs, ← haCdef, ← hmSdef, hnil, List.map_nil, List.flatten_nil]
      rw [htnil, hpvnil, bennuMergeStep_eq_t_nil]
      simp only [List.append_nil]
      have hgoal : gridT t0 d start cs = gridT t0 d start cur ∧
          gridPV t0 d pvOf start cs = gridPV t0 d pvOf start cur := by
        constructor <;>
          simp only [gridT, gridPV, gridKs, ← hk0def, ← hmCdef, ← hmSdef, hmSeq]
      rw [hgoal.1, hgoal.2]
  · -- accumulated series empty: adopt the new window wholesale
    have hnil : kRange k0 mC = [] := kRange_eq_nil _ _ (by omega)
    have haeq : aC = k0 := by omega
    have htnil : gridT t0 d start cur = [] := by
      simp only [gridT, gridKs, ← hk0def, ← hmCdef, hnil, List.map_nil]
    have hpvnil : gridPV t0 d pvOf start cur = [] := by
      simp only [gridPV, gridKs, ← hk0def, ← hmCdef, hnil, List.map_nil, List.flatten_nil]
    rw [htnil, hpvnil, bennuMergeStep_eq_nil_acc]
    simp only [List.nil_append]
    simp only [gridT, gridPV, gridKs, ← hk0def, ← haCdef, ← hmSdef, haeq]

theorem bennuLoopFuel_grid (t0 d : ℚ) (pvOf : ℤ → List ℚ) (span start stop : ℚ)
    (hd : 0 < d) (he : eps < d) (hpv : ∀ k, (pvOf k).length = 6) (hspan : 0 < span) :
    ∀ (fuel : ℕ) (cur : ℚ), start ≤ cur → cur ≤ stop → stop - cur ≤ fuel * span →
      bennuLoopFuel (gridFetchOk t0 d pvOf) stop span fuel cur
          (gridT t0 d start cur) (gridPV t0 d pvOf start cur)
        = some (gridT t0 d start stop, gridPV t0 d pvOf start stop) := by
  intro fuel
  induction fuel with
  | zero =>
    intro cur hc1 hc2 hc3
    have hle : stop ≤ cur := by
      have : ((0 : ℕ) : ℚ) * span = 0 := by norm_num
      rw [this] at hc3
      linarith
    have hceq : cur = stop := le_antisymm hc2 hle
    subst hceq
    simp [bennuLoopFuel, lt_irrefl]
  | succ n ih =>
    intro cur hc1 hc2 hc3
    by_cases hlt : cur < stop
    · have hcsle : cur ≤ min stop (cur + span) := by
        rcases le_total stop (cur + span) with hmin | hmin
        · rw [min_eq_left hmin]; linarith
        · rw [min_eq_right hmin]; linarith
      have hcsstop : min stop (cur + span) ≤ stop := min_le_left _ _
      have hfuel' : stop - min stop (cur + span) ≤ n * span := by
        rcases le_total stop (cur + span) with hmin | hmin
        · rw [min_eq_left hmin]
          have : (0 : ℚ) ≤ n * span := by positivity
          linarith
        · rw [min_eq_right hmin]
          have hns : ((n + 1 : ℕ) : ℚ) * span = (n : ℚ) * span + span := by push_cast; ring
          rw [hns] at hc3
          linarith
      simp only [bennuLoopFuel, if_pos hlt, gridFetchOk]
      rw [bennuMergeStep_grid t0 d pvOf hd he hpv start cur _ hc1 hcsle]
      exact ih _ (le_trans hc1 hcsle) hcsstop hfuel'
    · have hceq : cur = stop := le_antisymm hc2 (by linarith)
      subst hceq
      simp [bennuLoopFuel, lt_irrefl]

theorem bennuLoopFuel_grid_init (t0 d : ℚ) (pvOf : ℤ → List ℚ) (span start stop : ℚ)
    (hd : 0 < d) (he : eps < d) (hpv : ∀ k, (pvOf k).length = 6) (hspan : 0 < span)
    (fuel : ℕ) (hss : start < stop) (hfuel : stop - start ≤ fuel * span) :
    bennuLoopFuel (gridFetchOk t0 d pvOf) stop span fuel start [] []
      = some (gridT t0 d start stop, gridPV t0 d pvOf start stop) := by
  have hf0 : fuel ≠ 0 := by
    rintro rfl
    have : ((0 : ℕ) : ℚ) * span = 0 := by norm_num
    rw [this] at hfuel
    linarith
  obtain ⟨m, rfl⟩ : ∃ m, fuel = m + 1 := ⟨fuel - 1, by omega⟩
  have hcsle : start ≤ min stop (start + span) := by
    rcases le_total stop (start + span) with hmin | hmin
    · rw [min_eq_left hmin]; linarith
    · rw [min_eq_right hmin]; linarith
  have hcsstop : min stop (start + span) ≤ stop := min_le_left _ _
  have hfuel' : stop - min stop (start + span) ≤ m * span := by
    rcases le_total stop (start + span) with hmin | hmin
    · rw [min_eq_left hmin]
      have : (0 : ℚ) ≤ m * span := by positivity
      linarith
    · rw [min_eq_right hmin]
      have hns : ((m + 1 : ℕ) : ℚ) * span = (m : ℚ) * span + span := by push_cast; ring
      rw [hns] at hfuel
      linarith
  simp only [bennuLoopFuel, if_pos hss, gridFetchOk]
  rw [bennuMergeStep_eq_nil_acc]
  simp only [List.nil_append]
  exact bennuLoopFuel_grid t0 d pvOf span start stop hd he hpv hspan m _ hcsle hcsstop hfuel'

theorem bennuChunked_grid (t0 d : ℚ) (pvOf : ℤ → List ℚ) (maxS : ℤ) (start stop : ℚ)
    (fuel : ℕ) (hd : 0 < d) (he : eps < d) (hpv : ∀ k, (pvOf k).length = 6) (hmax : 2 ≤ maxS)
    (h2 : 2 ≤ (gridT t0 d start stop).length)
    (hfuel : stop - start ≤ fuel * (d * ((maxS - 1 : ℤ) : ℚ))) :
    bennuChunked (gridFetchOk t0 d pvOf) maxS d start stop fuel
      = some (gridT t0 d start stop, gridPV t0 d pvOf start stop) := by
  unfold bennuChunked
  by_cases hfit : qfloor ((stop - start) / d) + 1 ≤ maxS
  · rw [if_pos hfit]
    rfl
  · rw [if_neg hfit]
    have hspan : 0 < d * ((maxS - 1 : ℤ) : ℚ) := by
      have h1 : (1 : ℚ) ≤ ((maxS - 1 : ℤ) : ℚ) := by
        exact_mod_cast (by omega : (1 : ℤ) ≤ maxS - 1)
      nlinarith
    exact bennuLoopFuel_grid_init t0 d pvOf _ start stop hd he hpv hspan fuel
      (gridT_two_le_lt t0 d start stop hd h2) hfuel

/-- C1: for every query (in particular one whose span at the requested
step needs several sub-windows), the chunked fetch `horizons_vectors_chunked`
of the juno, explorer_one and bennu scripts returns a series — timestamps
and flattened vectors — identical to what a single unbounded call over the
whole `[start, stop]` range would return, under the hypothesis that the
service returns, for any requested window, exactly the samples of the
global step grid falling inclusively within that window (`gridFetch`).
`d` is the step in days, `maxS` the `MAX_SAMPLES_PER_CALL` ceiling, and
the window span is `d * (maxS - 1)` as computed by the sources. -/
theorem c1_chunking_transparent
    (t0 d : ℚ) (pvOf : ℤ → List ℚ) (maxS : ℤ) (start stop : ℚ) (fuel : ℕ)
    (hd : 0 < d) (he : eps < d) (hpv : ∀ k, (pvOf k).length = 6) (hmax : 2 ≤ maxS)
    (h2 : 2 ≤ (gridT t0 d start stop).length)
    (hfuel : stop - start ≤ fuel * (d * ((maxS - 1 : ℤ) : ℚ))) :
    junoChunkedFuel (gridFetch t0 d pvOf) start stop (d * ((maxS - 1 : ℤ) : ℚ)) fuel
        = some (.ok ((gridFetchOk t0 d pvOf start stop).t, (gridFetchOk t0 d pvOf start stop).pv))
    ∧ explorerChunkedFuel (gridFetchOk t0 d pvOf) start stop (d * ((maxS - 1 : ℤ) : ℚ)) fuel
        = some (.ok ((gridFetchOk t0 d pvOf start stop).t, (gridFetchOk t0 d pvOf start stop).pv))
    ∧ bennuChunked (gridFetchOk t0 d pvOf) maxS d start stop fuel
        = some ((gridFetchOk t0 d pvOf start stop).t, (gridFetchOk t0 d pvOf start stop).pv) := by
  have hspan : 0 < d * ((maxS - 1 : ℤ) : ℚ) := by
    have h1 : (1 : ℚ) ≤ ((maxS - 1 : ℤ) : ℚ) := by
      exact_mod_cast (by omega : (1 : ℤ) ≤ maxS - 1)
    nlinarith
  refine ⟨?_, ?_, ?_⟩
  · exact junoChunked_grid t0 d pvOf _ start stop fuel hd he hpv hspan h2 hfuel
  · exact explorerChunked_grid t0 d pvOf _ start stop fuel hd he hpv hspan h2 hfuel
  · exact bennuChunked_grid t0 d pvOf maxS start stop fuel hd he hpv hmax h2 hfuel

/-- Witness for C1 at a concrete query: step 1 day, ceiling 3 samples per
call (three sub-windows over `[0, 5]`). -/
theorem c1_chunking_transparent_witness :
    junoChunkedFuel (gridFetch 0 1 witnessPv) 0 5 (1 * ((3 - 1 : ℤ) : ℚ)) 4
        = some (.ok ((gridFetchOk 0 1 witnessPv 0 5).t, (gridFetchOk 0 1 witnessPv 0 5).pv))
    ∧ explorerChunkedFuel (gridFetchOk 0 1 witnessPv) 0 5 (1 * ((3 - 1 : ℤ) : ℚ)) 4
        = some (.ok ((gridFetchOk 0 1 witnessPv 0 5).t, (gridFetchOk 0 1 witnessPv 0 5).pv))
    ∧ bennuChunked (gridFetchOk 0 1 witnessPv) 3 1 0 5 4
        = some ((gridFetchOk 0 1 witnessPv 0 5).t, (gridFetchOk 0 1 witnessPv 0 5).pv) :=
  c1_chunking_transparent 0 1 witnessPv 3 0 5 4 (by norm_num) (by norm_num [eps])
    (fun _ => rfl) (by norm_num) (by decide) (by norm_num)

theorem collapsingFetch_loop_none :
    ∀ n : ℕ, junoLoopFuel collapsingFetch 1 2 n 0 [] [] = none := by
  intro n
  induction n with
  | zero => norm_num [junoLoopFuel]
  | succ m ih =>
    simp only [junoLoopFuel, collapsingFetch]
    rw [if_pos (by norm_num : (0 : ℚ) < 1)]
    rw [if_neg (by norm_num : ¬ (0 : ℚ) ≥ 1)]
    exact ih

/-- C7 counterexample: with a positive step (window span 2 days) and a
service whose range correction collapses the window (corrected boundary
equal to the current cursor, still before the stop time), the juno chunk
loop never terminates — for every fuel it is still running.  In
particular no `NoProgressError` (nor any other error) is ever raised. -/
theorem c7_counterexample :
    ¬ ∃ (n : ℕ) (r : Except Unit (List ℚ × List ℚ)),
        junoChunkedFuel collapsingFetch 0 1 2 n = some r := by
  rintro ⟨n, r, h⟩
  unfold junoChunkedFuel at h
  rw [collapsingFetch_loop_none n] at h
  simp at h

theorem junoLoopFuel_ok_exists (f : ℚ → ℚ → FetchOk) (stop span : ℚ) (hspan : 0 < span) :
    ∀ (fuel : ℕ) (cur : ℚ) (accT accPv : List ℚ), stop - cur ≤ fuel * span →
      ∃ res, junoLoopFuel (fun a b => .ok (f a b)) stop span fuel cur accT accPv = some res := by
  intro fuel
  induction fuel with
  | zero =>
    intro cur accT accPv hb
    have hnlt : ¬ cur < stop := by
      have : ((0 : ℕ) : ℚ) * span = 0 := by norm_num
      rw [this] at hb
      intro hc
      linarith
    exact ⟨.ok (accT, accPv), by simp [junoLoopFuel, hnlt]⟩
  | succ n ih =>
    intro cur accT accPv hb
    by_cases hlt : cur < stop
    · simp only [junoLoopFuel, if_pos hlt]
      by_cases hbreak : (if cur + span > stop then stop else cur + span) = cur
      · exact ⟨_, by rw [if_pos hbreak]⟩
      · rw [if_neg hbreak]
        apply ih
        by_cases hgt : cur + span > stop
        · simp only [hgt, if_true]
          have : (0 : ℚ) ≤ n * span := by positivity
          linarith
        · simp only [hgt, if_false]
          have hns : ((n + 1 : ℕ) : ℚ) * span = (n : ℚ) * span + span := by push_cast; ring
          rw [hns] at hb
          linarith
    · exact ⟨.ok (accT, accPv), by simp [junoLoopFuel, hlt]⟩

/-- C7 (amended): with a positive step and a service that never raises a
range correction, the juno chunk loop terminates (its cursor advances by
`min(span, remaining)` every iteration); and when the window span is zero
(a fully collapsed window) the loop stops after one iteration through the
silent `break` guarding `chunk_stop == start_dt`.  No `NoProgressError`
exists anywhere: the non-advancing-boundary scenario instead loops
forever (see the counterexample). -/
theorem c7_amended_termination
    (f : ℚ → ℚ → FetchOk) (start stop span : ℚ) (fuel : ℕ)
    (hspan : 0 < span) (hfuel : stop - start ≤ fuel * span) :
    (∃ out, junoChunkedFuel (fun a b => .ok (f a b)) start stop span fuel = some out)
    ∧ (∀ (g : ℚ → ℚ → FetchOk) (m : ℕ), start < stop →
        ∃ out, junoChunkedFuel (fun a b => .ok (g a b)) start stop 0 (m + 1) = some out) := by
  constructor
  · obtain ⟨res, hres⟩ :=
      junoLoopFuel_ok_exists f stop span hspan fuel start [] [] hfuel
    exact ⟨res.bind junoFinal, by unfold junoChunkedFuel; rw [hres]; rfl⟩
  · intro g m hss
    unfold junoChunkedFuel
    simp only [junoLoopFuel, if_pos hss]
    have hbreak : (if start + 0 > stop then stop else start + 0) = start := by
      rw [if_neg (by linarith : ¬ start + 0 > stop)]
      ring
    rw [if_pos hbreak]
    exact ⟨_, rfl⟩

/-- Witness for C7's amended theorem at a concrete query. -/
theorem c7_amended_termination_witness :
    (∃ out, junoChunkedFuel
        (fun a b => .ok (gridFetchOk 0 1 witnessPv a b)) 0 5 2 4 = some out)
    ∧ (∀ (g : ℚ → ℚ → FetchOk) (m : ℕ), (0 : ℚ) < 5 →
        ∃ out, junoChunkedFuel (fun a b => .ok (g a b)) 0 5 0 (m + 1) = some out) :=
  c7_amended_termination (gridFetchOk 0 1 witnessPv) 0 5 2 4 (by norm_num) (by norm_num)

/-- C9 counterexample: requesting `[0, 4]` (span 2 per window) from the
stale service, the juno chunked fetch RETURNS SUCCESSFULLY with a series
whose last timestamp is 2: the sub-range `(2, 4]` is silently missing
even though no clipping was disclosed and no error was raised — the code
has no coverage validation. -/
theorem c9_counterexample :
    junoChunkedFuel staleFetch 0 4 2 3 = some (.ok ([0, 1, 2], stalePv))
    ∧ (∀ x ∈ ([0, 1, 2] : List ℚ), x ≤ 2) ∧ (2 : ℚ) < 4 := by
  refine ⟨by rfl, by decide, by norm_num⟩

/-- C9 (amended): when every window fetch returns exactly its window's
grid samples (no range correction), the juno chunked fetch succeeds and
its series contains every grid instant of the requested `[start, stop]`
range; the complete-or-fail guarantee holds only under that hypothesis,
because the scheduler itself never validates coverage (counterexample:
a stale window is skipped silently while the cursor advances). -/
theorem c9_amended_coverage
    (t0 d : ℚ) (pvOf : ℤ → List ℚ) (maxS : ℤ) (start stop : ℚ) (fuel : ℕ)
    (hd : 0 < d) (he : eps < d) (hpv : ∀ k, (pvOf k).length = 6) (hmax : 2 ≤ maxS)
    (h2 : 2 ≤ (gridT t0 d start stop).length)
    (hfuel : stop - start ≤ fuel * (d * ((maxS - 1 : ℤ) : ℚ))) :
    ∃ r : List ℚ × List ℚ,
      junoChunkedFuel (gridFetch t0 d pvOf) start stop (d * ((maxS - 1 : ℤ) : ℚ)) fuel
        = some (.ok r)
      ∧ ∀ k : ℤ, start ≤ gridPt t0 d k → gridPt t0 d k ≤ stop → gridPt t0 d k ∈ r.1 := by
  have hspan : 0 < d * ((maxS - 1 : ℤ) : ℚ) := by
    have h1 : (1 : ℚ) ≤ ((maxS - 1 : ℤ) : ℚ) := by
      exact_mod_cast (by omega : (1 : ℤ) ≤ maxS - 1)
    nlinarith
  refine ⟨(gridT t0 d start stop, gridPV t0 d pvOf start stop),
    junoChunked_grid t0 d pvOf _ start stop fuel hd he hpv hspan h2 hfuel, ?_⟩
  intro k hk1 hk2
  show gridPt t0 d k ∈ gridT t0 d start stop
  unfold gridT
  exact List.mem_map_of_mem _ ((gridKs_mem t0 d hd start stop k).mpr ⟨hk1, hk2⟩)

/-- Witness for C9's amended theorem. -/
theorem c9_amended_coverage_witness :
    ∃ r : List ℚ × List ℚ,
      junoChunkedFuel (gridFetch 0 1 witnessPv) 0 5 (1 * ((3 - 1 : ℤ) : ℚ)) 4
        = some (.ok r)
      ∧ ∀ k : ℤ, (0 : ℚ) ≤ gridPt 0 1 k → gridPt 0 1 k ≤ 5 → gridPt 0 1 k ∈ r.1 :=
  c9_amended_coverage 0 1 witnessPv 3 0 5 4 (by norm_num) (by norm_num [eps])
    (fun _ => rfl) (by norm_num) (by decide) (by norm_num)

/-! ## C2: boundary-overlap removal when stitching -/

theorem takeWhile_append_all {α : Type} (p : α → Bool) (l1 l2 : List α)
    (h : ∀ x ∈ l1, p x = true) : (l1 ++ l2).takeWhile p = l1 ++ l2.takeWhile p := by
  induction l1 with
  | nil => simp
  | cons x xs ih =>
    have hx : p x = true := h x (List.mem_cons_self x xs)
    rw [List.cons_append, List.takeWhile_cons, hx]
    simp only [if_true]
    rw [ih (fun y hy => h y (List.mem_cons_of_mem x hy))]
    rfl

/-- C2 (amended): in the juno/explorer stitcher, every leading sample of
the new window whose timestamp is at most the last accepted timestamp
plus `1e-10` days is dropped together with its six vector fields before
appending; the bennu merger instead drops only the first sample and only
on an exact (within `1e-10`) boundary match — so in both, a boundary
instant shared exactly by two adjacent windows ends up in the assembled
series exactly once. -/
theorem c2_amended_stitch :
    (∀ (accT accPv t pv : List ℚ) (last : ℚ) (tdup trest : List ℚ),
        accT.getLast? = some last → t = tdup ++ trest →
        (∀ x ∈ tdup, x ≤ last + eps) →
        (∀ x, trest.head? = some x → ¬ x ≤ last + eps) →
        trest ≠ [] →
        junoStitch accT accPv t pv = (accT ++ trest, accPv ++ pv.drop (tdup.length * 6)))
    ∧ (∀ (tAll pvAll rest pv : List ℚ) (b : ℚ), tAll.getLast? = some b →
        bennuMergeStep tAll pvAll (b :: rest) pv = (tAll ++ rest, pvAll ++ pv.drop 6))
    ∧ (∀ (tAll pvAll rest pv : List ℚ) (b : ℚ), tAll.getLast? = some b →
        tAll.count b = 1 → rest.count b = 0 →
        ((bennuMergeStep tAll pvAll (b :: rest) pv).1).count b = 1) := by
  refine ⟨?_, ?_, ?_⟩
  · intro accT accPv t pv last tdup trest hlast hsplit hdup hstop hne
    subst hsplit
    rw [junoStitch_eq_last _ _ _ _ _ hlast]
    obtain ⟨y, ys, rfl⟩ : ∃ y ys, trest = y :: ys := by
      cases trest with
      | nil => exact absurd rfl hne
      | cons a b => exact ⟨a, b, rfl⟩
    have hpy : (decide (y ≤ last + eps)) = false := by
      rw [decide_eq_false_iff_not]
      exact hstop y rfl
    have htw : ((tdup ++ y :: ys).takeWhile (fun x => decide (x ≤ last + eps))) = tdup := by
      rw [takeWhile_append_all _ _ _ (fun x hx => decide_eq_true (hdup x hx))]
      rw [List.takeWhile_cons, hpy]
      simp
    rw [htw]
    have hlen : tdup.length < (tdup ++ y :: ys).length := by simp
    rw [if_pos hlen]
    congr 1
    congr 1
    exact List.drop_left _ _
  · intro tAll pvAll rest pv b hlast
    rw [bennuMergeStep_eq_some tAll pvAll (b :: rest) pv b b hlast rfl]
    rw [if_pos (by rw [sub_self, abs_zero]; exact eps_pos)]
    rfl
  · intro tAll pvAll rest pv b hlast h1 h2c
    rw [bennuMergeStep_eq_some tAll pvAll (b :: rest) pv b b hlast rfl]
    rw [if_pos (by rw [sub_self, abs_zero]; exact eps_pos)]
    show (tAll ++ (b :: rest).drop 1).count b = 1
    rw [List.drop_succ_cons, List.drop_zero, List.count_append, h1, h2c]

/-- Witness for C2's amended theorem at concrete series. -/
theorem c2_amended_stitch_witness :
    junoStitch [0, 5] (List.replicate 12 0) [4, 5, 6] (List.replicate 18 0)
        = ([0, 5] ++ [6], List.replicate 12 0 ++ (List.replicate 18 (0 : ℚ)).drop (2 * 6))
    ∧ bennuMergeStep [0, 5] (List.replicate 12 0) (5 :: [6]) (List.replicate 18 0)
        = ([0, 5] ++ [6], List.replicate 12 0 ++ (List.replicate 18 (0 : ℚ)).drop 6)
    ∧ ((bennuMergeStep [0, 5] (List.replicate 12 0) (5 :: [6])
        (List.replicate 18 0)).1).count 5 = 1 :=
  ⟨c2_amended_stitch.1 [0, 5] (List.replicate 12 0) [4, 5, 6] (List.replicate 18 0) 5
      [4, 5] [6] (by decide) rfl (by decide) (by decide) (by decide),
   c2_amended_stitch.2.1 [0, 5] (List.replicate 12 0) [6] (List.replicate 18 0) 5 (by decide),
   c2_amended_stitch.2.2 [0, 5] (List.replicate 12 0) [6] (List.replicate 18 0) 5
      (by decide) (by decide) (by decide)⟩

/-- C2 counterexample: the bennu merger violates the claimed rule.  With
the accumulated series ending at 5 and the new window `[4, 5, 6]`, the
leading sample 4 satisfies `4 ≤ 5 + 1e-10` yet is NOT dropped (bennu only
compares the first new sample with the last accepted one), and the
boundary instant 5 ends up in the assembled series twice. -/
theorem c2_counterexample :
    bennuMergeStep [0, 5] (List.replicate 12 0) [4, 5, 6] (List.replicate 18 0)
        = ([0, 5, 4, 5, 6], List.replicate 12 0 ++ List.replicate 18 (0 : ℚ))
    ∧ (4 : ℚ) ≤ 5 + eps
    ∧ ([0, 5, 4, 5, 6] : List ℚ).count 5 = 2 := by
  refine ⟨by decide, by decide, by decide⟩

theorem prefixB_refl (s : List Char) : prefixB s s = true := by
  induction s with
  | nil => rfl
  | cons a as ih => simp [prefixB, ih]

theorem substrB_suffix (p s : List Char) : substrB s (p ++ s) = true := by
  induction p with
  | nil =>
    cases s with
    | nil => rfl
    | cons c cs =>
      simp only [List.nil_append, substrB, prefixB_refl, Bool.true_or]
  | cons a as ih =>
    rw [List.cons_append]
    show (prefixB s (a :: (as ++ s)) || substrB s (as ++ s)) = true
    rw [ih, Bool.or_true]

theorem junoReqAux_calls_le {α : Type} (attempt : ℕ → Except String α) :
    ∀ (rem i : ℕ) (last : Option String),
      (junoReqAux attempt i rem last).2.1 ≤ rem := by
  intro rem
  induction rem with
  | zero => intro i last; simp [junoReqAux]
  | succ n ih =>
    intro i last
    simp only [junoReqAux]
    cases attempt i with
    | ok v => simp
    | error e =>
      by_cases hn : n = 0
      · simp [hn]
      · simp only [if_neg hn]
        have := ih (i + 1) (some e)
        simp
        omega

theorem bennuReqAux_calls_le {α : Type} (attempt : ℕ → Except String α) :
    ∀ (rem i : ℕ) (last : Option String),
      (bennuReqAux attempt i rem last).2.1 ≤ rem := by
  intro rem
  induction rem with
  | zero => intro i last; simp [bennuReqAux]
  | succ n ih =>
    intro i last
    simp only [bennuReqAux]
    cases attempt i with
    | ok v => simp
    | error e =>
      have := ih (i + 1) (some e)
      simp
      omega

theorem two_pow_mono_q {i j : ℕ} (h : i ≤ j) : (2 : ℚ) ^ i ≤ 2 ^ j :=
  pow_le_pow_right (by norm_num) h

theorem junoReqAux_delays {α : Type} (attempt : ℕ → Except String α) :
    ∀ (rem i : ℕ) (last : Option String),
      List.Chain' (· ≤ ·) (junoReqAux attempt i rem last).1
      ∧ ∀ x ∈ (junoReqAux attempt i rem last).1,
          (9 / 5 : ℚ) * 2 ^ i ≤ x ∧ x ≤ (9 / 5 : ℚ) * 2 ^ (i + rem) := by
  intro rem
  induction rem with
  | zero => intro i last; simp [junoReqAux]
  | succ n ih =>
    intro i last
    simp only [junoReqAux]
    cases attempt i with
    | ok v => simp
    | error e =>
      by_cases hn : n = 0
      · simp [hn]
      · simp only [if_neg hn]
        obtain ⟨ihc, ihb⟩ := ih (i + 1) (some e)
        constructor
        · rw [List.chain'_cons']
          refine ⟨?_, ihc⟩
          intro y hy
          have hym := List.mem_of_mem_head? hy
          have := (ihb y hym).1
          have hp : (9 / 5 : ℚ) * 2 ^ i ≤ (9 / 5 : ℚ) * 2 ^ (i + 1) := by
            have := two_pow_mono_q (by omega : i ≤ i + 1)
            nlinarith
          linarith
        · intro x hx
          rcases List.mem_cons.mp hx with hx1 | hx2
          · subst hx1
            constructor
            · exact le_rfl
            · have := two_pow_mono_q (by omega : i ≤ i + (n + 1))
              nlinarith
          · obtain ⟨hlo, hhi⟩ := ihb x hx2
            constructor
            · have hp : (9 / 5 : ℚ) * 2 ^ i ≤ (9 / 5 : ℚ) * 2 ^ (i + 1) := by
                have := two_pow_mono_q (by omega : i ≤ i + 1)
                nlinarith
              linarith
            · have hq : (i + 1) + n = i + (n + 1) := by omega
              rw [hq] at hhi
              exact hhi

theorem bennuReqAux_delays {α : Type} (attempt : ℕ → Except String α) :
    ∀ (rem i : ℕ) (last : Option String),
      List.Chain' (· ≤ ·) (bennuReqAux attempt i rem last).1
      ∧ ∀ x ∈ (bennuReqAux attempt i rem last).1,
          (2 : ℚ) * ((i : ℚ) + 1) ≤ x ∧ x ≤ (2 : ℚ) * ((i : ℚ) + rem) := by
  intro rem
  induction rem with
  | zero => intro i last; simp [bennuReqAux]
  | succ n ih =>
    intro i last
    simp only [bennuReqAux]
    cases attempt i with
    | ok v => simp
    | error e =>
      obtain ⟨ihc, ihb⟩ := ih (i + 1) (some e)
      constructor
      · rw [List.chain'_cons']
        refine ⟨?_, ihc⟩
        intro y hy
        have hym := List.mem_of_mem_head? hy
        have := (ihb y hym).1
        have hp : (2 : ℚ) * ((i : ℚ) + 1) ≤ (2 : ℚ) * (((i + 1 : ℕ) : ℚ) + 1) := by
          push_cast
          nlinarith
        linarith
      · intro x hx
        rcases List.mem_cons.mp hx with hx1 | hx2
        · subst hx1
          refine ⟨le_rfl, ?_⟩
          push_cast
          nlinarith
        · obtain ⟨hlo, hhi⟩ := ihb x hx2
          constructor
          · have hp : (2 : ℚ) * ((i : ℚ) + 1) ≤ (2 : ℚ) * (((i + 1 : ℕ) : ℚ) + 1) := by
              push_cast
              nlinarith
            linarith
          · have : (2 : ℚ) * (((i + 1 : ℕ) : ℚ) + (n : ℚ)) ≤ (2 : ℚ) * ((i : ℚ) + ((n + 1 : ℕ) : ℚ)) := by
              push_cast
              nlinarith
            linarith

theorem junoReqAux_all_fail {α : Type} (errf : ℕ → String) :
    ∀ (n i : ℕ) (last : Option String),
      (junoReqAux (α := α) (fun j => .error (errf j)) i (n + 1) last).2.2
        = .error ("Horizons request failed: " ++ errf (i + n)) := by
  intro n
  induction n with
  | zero => intro i last; simp [junoReqAux]
  | succ m ih =>
    intro i last
    have harg : i + 1 + m = i + (m + 1) := by omega
    have hh := ih (i + 1) (some (errf i))
    rw [harg] at hh
    have hstep : (junoReqAux (α := α) (fun j => .error (errf j)) i (m + 1 + 1) last).2.2
        = (junoReqAux (α := α) (fun j => .error (errf j)) (i + 1) (m + 1)
            (some (errf i))).2.2 := rfl
    rw [hstep, hh]

theorem bennuReqAux_all_fail {α : Type} (errf : ℕ → String) :
    ∀ (n i : ℕ) (last : Option String),
      (bennuReqAux (α := α) (fun j => .error (errf j)) i (n + 1) last).2.2
        = .error ("Horizons request failed after 5 retries: "
            ++ (some (errf (i + n)) : Option String).getD "None") := by
  intro n
  induction n with
  | zero => intro i last; simp [bennuReqAux]
  | succ m ih =>
    intro i last
    have harg : i + 1 + m = i + (m + 1) := by omega
    have hh := ih (i + 1) (some (errf i))
    rw [harg] at hh
    have hstep : (bennuReqAux (α := α) (fun j => .error (errf j)) i (m + 1 + 1) last).2.2
        = (bennuReqAux (α := α) (fun j => .error (errf j)) (i + 1) (m + 1)
            (some (errf i))).2.2 := rfl
    rw [hstep, hh]

/-- C6: both `request_json` variants (juno and bennu) make at most
`RETRIES = 5` attempts; the delays slept between successive attempts are
monotonically non-decreasing and bounded (by 60 s); and when every
attempt fails, the raised error's message carries the last underlying
error (it ends with the message of attempt 4, the final one). -/
theorem c6_request_retries :
    (∀ (α : Type) (attempt : ℕ → Except String α),
        (junoRequestJson attempt).2.1 ≤ 5
        ∧ (bennuRequestJson attempt).2.1 ≤ 5
        ∧ List.Chain' (· ≤ ·) (junoRequestJson attempt).1
        ∧ List.Chain' (· ≤ ·) (bennuRequestJson attempt).1
        ∧ (∀ x ∈ (junoRequestJson attempt).1, x ≤ 60)
        ∧ (∀ x ∈ (bennuRequestJson attempt).1, x ≤ 60))
    ∧ (∀ (α : Type) (errf : ℕ → String),
        (junoRequestJson (α := α) (fun j => .error (errf j))).2.2
          = .error ("Horizons request failed: " ++ errf 4)
        ∧ (bennuRequestJson (α := α) (fun j => .error (errf j))).2.2
          = .error ("Horizons request failed after 5 retries: " ++ errf 4)) := by
  constructor
  · intro α attempt
    obtain ⟨hjc, hjb⟩ := junoReqAux_delays attempt 5 0 none
    obtain ⟨hbc, hbb⟩ := bennuReqAux_delays attempt 5 0 none
    refine ⟨junoReqAux_calls_le attempt 5 0 none, bennuReqAux_calls_le attempt 5 0 none,
      hjc, hbc, ?_, ?_⟩
    · intro x hx
      have := (hjb x hx).2
      have h2 : (9 / 5 : ℚ) * 2 ^ (0 + 5) ≤ 60 := by norm_num
      linarith
    · intro x hx
      have := (hbb x hx).2
      have h2 : (2 : ℚ) * (((0 : ℕ) : ℚ) + (5 : ℕ)) ≤ 60 := by norm_num
      linarith
  · intro α errf
    constructor
    · exact junoReqAux_all_fail errf 4 0 none
    · exact bennuReqAux_all_fail errf 4 0 none

/-- Witness for C6 at a concrete always-failing oracle. -/
theorem c6_request_retries_witness :
    ((junoRequestJson (α := Unit) (fun _ => .error "boom")).2.1 ≤ 5
      ∧ (bennuRequestJson (α := Unit) (fun _ => .error "boom")).2.1 ≤ 5
      ∧ List.Chain' (· ≤ ·) (junoRequestJson (α := Unit) (fun _ => .error "boom")).1
      ∧ List.Chain' (· ≤ ·) (bennuRequestJson (α := Unit) (fun _ => .error "boom")).1
      ∧ (∀ x ∈ (junoRequestJson (α := Unit) (fun _ => .error "boom")).1, x ≤ 60)
      ∧ (∀ x ∈ (bennuRequestJson (α := Unit) (fun _ => .error "boom")).1, x ≤ 60))
    ∧ ((junoRequestJson (α := Unit) (fun _ => .error "boom")).2.2
        = .error ("Horizons request failed: " ++ "boom")
      ∧ (bennuRequestJson (α := Unit) (fun _ => .error "boom")).2.2
        = .error ("Horizons request failed after 5 retries: " ++ "boom")) :=
  ⟨c6_request_retries.1 Unit (fun _ => .error "boom"),
   c6_request_retries.2 Unit (fun _ => "boom")⟩

theorem gridZipCheck_ok_iff (name : String) :
    ∀ l : List (ℚ × ℚ), gridZipCheck name l = .ok () ↔ ∀ p ∈ l, |p.1 - p.2| ≤ eps := by
  intro l
  induction l with
  | nil => simp [gridZipCheck]
  | cons p rest ih =>
    obtain ⟨a, b⟩ := p
    simp only [gridZipCheck]
    by_cases hab : |a - b| > eps
    · rw [if_pos hab]
      simp only [List.mem_cons]
      constructor
      · intro h
        exact absurd h (by simp)
      · intro h
        exact absurd (h (a, b) (Or.inl rfl)) (by simpa using hab)
    · rw [if_neg hab]
      rw [ih]
      push_neg at hab
      constructor
      · intro h q hq
        rcases List.mem_cons.mp hq with h1 | h2
        · subst h1; exact hab
        · exact h q h2
      · intro h q hq
        exact h q (List.mem_cons_of_mem _ hq)

theorem gridZipCheck_error (name : String) :
    ∀ (l : List (ℚ × ℚ)) (e : String), gridZipCheck name l = .error e →
      e = "Time grid mismatch: " ++ name := by
  intro l
  induction l with
  | nil => intro e h; exact absurd h (by simp [gridZipCheck])
  | cons p rest ih =>
    obtain ⟨a, b⟩ := p
    intro e h
    simp only [gridZipCheck] at h
    by_cases hab : |a - b| > eps
    · rw [if_pos hab] at h
      cases h
      rfl
    · rw [if_neg hab] at h
      exact ih e h

/-- C8 (amended): the juno-style validator succeeds exactly when the time
lists have equal length and every zipped pair differs by at most `1e-10`,
and every failure message names the offending body; the Ephemeris-script
variant checks only length equality (no tolerance comparison) and its
message names no body. -/
theorem c8_amended_grid_validator :
    (∀ (name : String) (t tRef : List ℚ),
        junoGridCheck name t tRef = .ok ()
          ↔ (t.length = tRef.length ∧ ∀ p ∈ t.zip tRef, |p.1 - p.2| ≤ eps))
    ∧ (∀ (name : String) (t tRef : List ℚ) (e : String),
        junoGridCheck name t tRef = .error e → e = "Time grid mismatch: " ++ name)
    ∧ (∀ t tRef : List ℚ,
        ephemerisGridCheck t tRef = .ok () ↔ t.length = tRef.length) := by
  refine ⟨?_, ?_, ?_⟩
  · intro name t tRef
    unfold junoGridCheck
    by_cases hlen : t.length ≠ tRef.length
    · rw [if_pos hlen]
      simp only [iff_def]
      constructor
      · intro h
        exact absurd h (by simp)
      · intro h
        exact absurd h.1 hlen
    · rw [if_neg hlen]
      push_neg at hlen
      rw [gridZipCheck_ok_iff]
      simp [hlen]
  · intro name t tRef e h
    unfold junoGridCheck at h
    by_cases hlen : t.length ≠ tRef.length
    · rw [if_pos hlen] at h
      cases h
      rfl
    · rw [if_neg hlen] at h
      exact gridZipCheck_error name _ e h
  · intro t tRef
    unfold ephemerisGridCheck
    by_cases hlen : t.length ≠ tRef.length
    · rw [if_pos hlen]
      constructor
      · intro h
        exact absurd h (by simp)
      · intro h
        exact absurd h hlen
    · rw [if_neg hlen]
      push_neg at hlen
      simp [hlen]

/-- Witness for C8's amended theorem at concrete grids. -/
theorem c8_amended_grid_validator_witness :
    junoGridCheck "Mercury" [0, 1] [0, 1] = .ok ()
    ∧ (junoGridCheck "Mercury" [0, 1] [0, 2] = .error "Time grid mismatch: Mercury"
        → "Time grid mismatch: Mercury" = "Time grid mismatch: " ++ "Mercury")
    ∧ (ephemerisGridCheck [0, 1] [0, 2] = .ok () ↔
        ([0, 1] : List ℚ).length = ([0, 2] : List ℚ).length) :=
  ⟨(c8_amended_grid_validator.1 "Mercury" [0, 1] [0, 1]).mpr (by constructor <;> decide),
   c8_amended_grid_validator.2.1 "Mercury" [0, 1] [0, 2] "Time grid mismatch: Mercury",
   c8_amended_grid_validator.2.2 [0, 1] [0, 2]⟩

/-- C8 counterexample: the Ephemeris-script validator accepts two
equal-length grids whose timestamps differ by far more than `1e-10`
(violating the claimed if-and-only-if), and its mismatch message does not
name the offending body. -/
theorem c8_counterexample :
    ephemerisGridCheck [0, 1] [0, 2] = .ok ()
    ∧ ¬ (|(1 : ℚ) - 2| ≤ eps)
    ∧ ephemerisGridCheck [0] [0, 1] = .error "Time grid mismatch in multi ephemeris."
    ∧ substrB "Mercury".data "Time grid mismatch in multi ephemeris.".data = false := by
  refine ⟨by rfl, by decide, by rfl, by decide⟩

theorem pvBlock_append (pv w : List ℚ) (i : ℕ) (h : 6 * i + 6 ≤ pv.length) :
    pvBlock (pv ++ w) i = pvBlock pv i := by
  unfold pvBlock
  rw [List.drop_append_eq_append_drop]
  have h0 : 6 * i - pv.length = 0 := by omega
  rw [h0, List.drop_zero, List.take_append_eq_append_take]
  have h1 : 6 - (pv.drop (6 * i)).length = 0 := by
    rw [List.length_drop]
    omega
  rw [h1, List.take_zero, List.append_nil]

theorem issStep_fst (acc : List ℚ × List ℚ) (s : ℚ × Option (List ℚ)) :
    (issStep acc s).1 = acc.1 ++ [s.1] := by
  unfold issStep
  cases s.2 <;> rfl

/-- C10: in the ISS ephemeris generator, for every propagation instant
where SGP4 reports an error, the timestamp is still appended and the
previous sample's six state values are duplicated in its place (six zeros
when no previous sample exists), so the emitted dataset always satisfies
`len(pv) = 6 * len(t_jd)` — failed samples are silently filled, never
reported as errors. -/
theorem c10_iss_fill (samples : List (ℚ × Option (List ℚ)))
    (hs : ∀ p ∈ samples, ∀ v, p.2 = some v → v.length = 6) :
    (issBuild samples).1 = samples.map Prod.fst
    ∧ (issBuild samples).2.length = 6 * samples.length
    ∧ ∀ (i : ℕ) (hi : i < samples.length),
        (samples.get ⟨i, hi⟩).2 = none →
        pvBlock (issBuild samples).2 i
          = if i = 0 then [0, 0, 0, 0, 0, 0] else pvBlock (issBuild samples).2 (i - 1) := by
  revert hs
  induction samples using List.reverseRecOn with
  | nil =>
    intro _
    refine ⟨rfl, rfl, ?_⟩
    intro i hi
    exact absurd hi (by simp)
  | append_singleton xs x ih =>
    intro hs
    obtain ⟨ih1, ih2, ih3⟩ := ih (fun p hp v hv => hs p (List.mem_append.mpr (Or.inl hp)) v hv)
    have hfold : issBuild (xs ++ [x]) = issStep (issBuild xs) x := by
      unfold issBuild
      exact List.foldl_concat _ _ _ _
    -- the six values appended for the new sample
    have hw : ∃ w : List ℚ, w.length = 6 ∧ (issStep (issBuild xs) x).2 = (issBuild xs).2 ++ w
        ∧ (x.2 = none →
            w = if (issBuild xs).2 ≠ [] then
                  (issBuild xs).2.drop ((issBuild xs).2.length - 6)
                else [0, 0, 0, 0, 0, 0]) := by
      cases hx2 : x.2 with
      | none =>
        refine ⟨_, ?_, by unfold issStep; rw [hx2], fun _ => rfl⟩
        by_cases hnil : (issBuild xs).2 ≠ []
        · rw [if_pos hnil, List.length_drop]
          have hxs1 : xs.length ≠ 0 := by
            intro h0
            apply hnil
            have := ih2
            rw [h0] at this
            exact List.eq_nil_of_length_eq_zero (by omega)
          omega
        · rw [if_neg hnil]
          rfl
      | some v =>
        refine ⟨v, hs x (List.mem_append.mpr (Or.inr (List.mem_singleton_self x))) v hx2,
          by unfold issStep; rw [hx2],
          fun hc => absurd hc (Option.some_ne_none v)⟩
    obtain ⟨w, hw6, hwapp, hwnone⟩ := hw
    refine ⟨?_, ?_, ?_⟩
    · rw [hfold, issStep_fst, ih1, List.map_append]
      rfl
    · rw [hfold, hwapp, List.length_append, ih2, hw6, List.length_append]
      simp only [List.length_singleton]
      omega
    · intro i hi hnone
      rw [hfold, hwapp]
      by_cases hilt : i < xs.length
      · -- an old sample: its blocks are unchanged by the append
        have hget : ((xs ++ [x]).get ⟨i, hi⟩) = xs.get ⟨i, hilt⟩ := List.get_append i hilt
        rw [hget] at hnone
        have hres := ih3 i hilt hnone
        have hb1 : 6 * i + 6 ≤ (issBuild xs).2.length := by
          rw [ih2]
          omega
        rw [pvBlock_append _ w i hb1, hres]
        by_cases hz : i = 0
        · rw [if_pos hz, if_pos hz]
        · rw [if_neg hz, if_neg hz]
          have hb2 : 6 * (i - 1) + 6 ≤ (issBuild xs).2.length := by
            rw [ih2]
            omega
          rw [pvBlock_append _ w (i - 1) hb2]
      · -- the new sample itself
        have hieq : i = xs.length := by
          have := hi
          simp only [List.length_append, List.length_singleton] at this
          omega
        subst hieq
        have hgx : (xs ++ [x]).get ⟨xs.length, hi⟩ = x := by simp
        rw [hgx] at hnone
        have hdropw : pvBlock ((issBuild xs).2 ++ w) xs.length = w := by
          unfold pvBlock
          have h6l : 6 * xs.length = (issBuild xs).2.length := by omega
          rw [h6l, List.drop_left, List.take_of_length_le (le_of_eq hw6)]
        rw [hdropw]
        by_cases hz : xs.length = 0
        · rw [if_pos hz]
          have hpvnil : (issBuild xs).2 = [] :=
            List.eq_nil_of_length_eq_zero (by omega)
          rw [hwnone hnone, if_neg (not_not.mpr hpvnil)]
        · rw [if_neg hz]
          have hpvne : (issBuild xs).2 ≠ [] := by
            intro hc
            rw [hc] at ih2
            simp only [List.length_nil] at ih2
            omega
          rw [hwnone hnone, if_pos hpvne]
          have hb3 : 6 * (xs.length - 1) + 6 ≤ (issBuild xs).2.length := by omega
          rw [pvBlock_append _ _ (xs.length - 1) hb3]
          unfold pvBlock
          have h1 : 6 * (xs.length - 1) = (issBuild xs).2.length - 6 := by omega
          rw [h1]
          have h2 : ((issBuild xs).2.drop ((issBuild xs).2.length - 6)).length = 6 := by
            rw [List.length_drop]
            omega
          rw [List.take_of_length_le (le_of_eq h2)]

/-- Witness for C10 on a concrete run with two failed propagations. -/
theorem c10_iss_fill_witness :
    (issBuild issWitnessSamples).1 = issWitnessSamples.map Prod.fst
    ∧ (issBuild issWitnessSamples).2.length = 6 * issWitnessSamples.length
    ∧ ∀ (i : ℕ) (hi : i < issWitnessSamples.length),
        (issWitnessSamples.get ⟨i, hi⟩).2 = none →
        pvBlock (issBuild issWitnessSamples).2 i
          = if i = 0 then [0, 0, 0, 0, 0, 0]
            else pvBlock (issBuild issWitnessSamples).2 (i - 1) :=
  c10_iss_fill issWitnessSamples (by
    intro p hp v hv
    fin_cases hp
    · simp only [Option.some.injEq] at hv
      rw [← hv]
      rfl
    · exact absurd hv (by simp)
    · exact absurd hv (by simp))

theorem mapM_option_length {α β : Type} (f : α → Option β) :
    ∀ (l : List α) (l' : List β), l.mapM f = some l' → l'.length = l.length := by
  intro l
  induction l with
  | nil =>
    intro l' h
    simp only [List.mapM_nil, pure, Option.some.injEq] at h
    rw [← h]
    rfl
  | cons x xs ih =>
    intro l' h
    rw [List.mapM_cons] at h
    cases hf : f x with
    | none => rw [hf] at h; simp at h
    | some y =>
      rw [hf] at h
      cases hr : xs.mapM f with
      | none => rw [hr] at h; simp at h
      | some ys =>
        rw [hr] at h
        simp only [Option.bind_eq_bind, Option.some_bind, Option.pure_def,
          Option.some.injEq] at h
        rw [← h, List.length_cons, ih ys hr, List.length_cons]

theorem junoCsvLine_snd_len (parts : List Cell) (jd : ℚ) (vals : List ℚ)
    (h : junoCsvLine parts = some (jd, vals)) : vals.length = 6 := by
  unfold junoCsvLine at h
  cases hh : (dropTrailingEmpties parts).head? with
  | none => rw [hh] at h; exact absurd h (by simp)
  | some p0 =>
    simp only [hh, Option.some_bind] at h
    by_cases hd : ¬ p0.startsDigit
    · rw [if_pos hd] at h; exact absurd h (by simp)
    · rw [if_neg hd] at h
      cases hv : p0.valPlain with
      | none => rw [hv] at h; exact absurd h (by simp)
      | some jd0 =>
        simp only [hv, Option.some_bind] at h
        by_cases hlt : (((dropTrailingEmpties parts).drop
            (if (dropTrailingEmpties parts).length ≥ 8 then 2 else 1)).take 6).length < 6
        · rw [if_pos hlt] at h; exact absurd h (by simp)
        · rw [if_neg hlt] at h
          cases hm : (((dropTrailingEmpties parts).drop
              (if (dropTrailingEmpties parts).length ≥ 8 then 2 else 1)).take 6).mapM
              (fun c => c.valDE) with
          | none => rw [hm] at h; exact absurd h (by simp)
          | some vs =>
            simp only [hm, Option.some_bind, Option.some.injEq, Prod.mk.injEq] at h
            have hlen := mapM_option_length _ _ _ hm
            rw [← h.2, hlen]
            have hle : (((dropTrailingEmpties parts).drop
                (if (dropTrailingEmpties parts).length ≥ 8 then 2 else 1)).take 6).length ≤ 6 :=
              by simp
            omega

theorem junoTableLine_snd_len (toks : List Cell) (fd : Bool) (jd : ℚ) (vals : List ℚ)
    (h : junoTableLine toks fd = some (jd, vals)) : vals.length = 6 := by
  unfold junoTableLine at h
  by_cases hfd : ¬ fd
  · rw [if_pos hfd] at h; exact absurd h (by simp)
  · rw [if_neg hfd] at h
    by_cases hlen : toks.length < 7
    · rw [if_pos hlen] at h; exact absurd h (by simp)
    · rw [if_neg hlen] at h
      cases hh : toks.head? with
      | none => rw [hh] at h; exact absurd h (by simp)
      | some t0 =>
        simp only [hh, Option.some_bind] at h
        cases hv : t0.valPlain with
        | none => rw [hv] at h; exact absurd h (by simp)
        | some jd0 =>
          simp only [hv, Option.some_bind] at h
          cases hm : (toks.drop (toks.length - 6)).mapM (fun c => c.valDE) with
          | none => rw [hm] at h; exact absurd h (by simp)
          | some vs =>
            simp only [hm, Option.some_bind, Option.some.injEq, Prod.mk.injEq] at h
            have hlen2 := mapM_option_length _ _ _ hm
            rw [← h.2, hlen2, List.length_drop]
            omega

theorem junoParseLine_snd_len (ls : LineShape) (jd : ℚ) (vals : List ℚ)
    (h : junoParseLine ls = some (jd, vals)) : vals.length = 6 := by
  cases ls with
  | blank => exact absurd h (by simp [junoParseLine])
  | csv parts => exact junoCsvLine_snd_len parts jd vals h
  | table toks fd => exact junoTableLine_snd_len toks fd jd vals h

theorem bennuCsvLine_snd_len (parts : List Cell) (jd : ℚ) (vals : List ℚ)
    (h : bennuCsvLine parts = some (jd, vals)) : vals.length = 6 := by
  unfold bennuCsvLine at h
  by_cases hlen : parts.length < 8
  · rw [if_pos hlen] at h; exact absurd h (by simp)
  · rw [if_neg hlen] at h
    cases hh : parts.head? with
    | none => rw [hh] at h; exact absurd h (by simp)
    | some p0 =>
      simp only [hh, Option.some_bind] at h
      cases hv : p0.valPlain with
      | none => rw [hv] at h; exact absurd h (by simp)
      | some jd0 =>
        simp only [hv, Option.some_bind] at h
        cases hm : ((parts.drop 2).take 6).mapM (fun c => c.valDE) with
        | none => rw [hm] at h; exact absurd h (by simp)
        | some vs =>
          simp only [hm, Option.some_bind, Option.some.injEq, Prod.mk.injEq] at h
          have hlen2 := mapM_option_length _ _ _ hm
          rw [← h.2, hlen2, List.length_take, List.length_drop]
          omega

theorem bennuParseLine_snd_len (ls : LineShape) (jd : ℚ) (vals : List ℚ)
    (h : bennuParseLine ls = some (jd, vals)) : vals.length = 6 := by
  cases ls with
  | blank => exact absurd h (by simp [bennuParseLine])
  | csv parts => exact bennuCsvLine_snd_len parts jd vals h
  | table toks fd => exact absurd h (by simp [bennuParseLine])

theorem flatten_length_of_mem {α : Type} (g : α → List ℚ) (l : List α)
    (hg : ∀ x ∈ l, (g x).length = 6) : ((l.map g).flatten).length = l.length * 6 := by
  induction l with
  | nil => simp
  | cons x xs ih =>
    simp only [List.map_cons, List.flatten_cons, List.length_append, List.length_cons]
    rw [hg x (List.mem_cons_self x xs), ih (fun y hy => hg y (List.mem_cons_of_mem x hy))]
    ring

theorem junoSamples_pv_len (block : List SrcLine) :
    (((junoSamples block).map Prod.snd).flatten).length = (junoSamples block).length * 6 := by
  apply flatten_length_of_mem
  intro s hs
  obtain ⟨ln, _, hsome⟩ := List.mem_filterMap.mp hs
  exact junoParseLine_snd_len ln.shape s.1 s.2 (by rwa [← Prod.mk.eta (p := s)] at hsome)

theorem bennuSamples_pv_len (block : List SrcLine) :
    (((bennuSamples block).map Prod.snd).flatten).length = (bennuSamples block).length * 6 := by
  apply flatten_length_of_mem
  intro s hs
  obtain ⟨ln, _, hsome⟩ := List.mem_filterMap.mp hs
  exact bennuParseLine_snd_len ln.shape s.1 s.2 (by rwa [← Prod.mk.eta (p := s)] at hsome)

/-- C3 (amended): the juno/explorer and bennu `parse_vectors` raise exactly
when fewer than two samples were extracted or the flattened vector count
differs from six per timestamp, with a message that is the fixed text
followed by the first 25 lines of the offending block; every successful
return satisfies both conditions, and in fact the extracted samples always
carry exactly six vector fields per timestamp. The Ephemeris-script
variant (`horizons_vectors`) raises exactly when fewer than two rows
matched, with a fixed message containing no preview of the block. -/
theorem c3_amended_parser_errors :
    (∀ (block : List SrcLine) (e : String),
        junoParseVectors block = .error e ↔
          ((((junoSamples block).map Prod.fst).length < 2
              ∨ (((junoSamples block).map Prod.snd).flatten).length
                  ≠ ((junoSamples block).map Prod.fst).length * 6)
            ∧ e = "Parsed too few samples. Preview:\n" ++ previewStr block))
    ∧ (∀ (block : List SrcLine) (t pv : List ℚ),
        junoParseVectors block = .ok (t, pv) →
          2 ≤ t.length ∧ pv.length = t.length * 6)
    ∧ (∀ block : List SrcLine,
        (((junoSamples block).map Prod.snd).flatten).length
          = ((junoSamples block).map Prod.fst).length * 6)
    ∧ (∀ (block : List SrcLine) (e : String),
        bennuParseVectors block = .error e ↔
          ((((bennuSamples block).map Prod.fst).length < 2
              ∨ (((bennuSamples block).map Prod.snd).flatten).length
                  ≠ ((bennuSamples block).map Prod.fst).length * 6)
            ∧ e = "Parsed too few samples. Preview:\n" ++ previewStr block))
    ∧ (∀ (block : List SrcLine) (t pv : List ℚ),
        bennuParseVectors block = .ok (t, pv) →
          2 ≤ t.length ∧ pv.length = t.length * 6)
    ∧ (∀ block : List SrcLine,
        (((bennuSamples block).map Prod.snd).flatten).length
          = ((bennuSamples block).map Prod.fst).length * 6)
    ∧ (∀ (ms : List (ℚ × (ℚ × ℚ × ℚ × ℚ × ℚ × ℚ))) (e : String),
        ephemerisParseResult ms = .error e ↔
          (ms.length < 2 ∧ e = "Parsed too few samples from Horizons output.")) := by
  have herr : ∀ (samples : List (ℚ × List ℚ)) (block : List SrcLine) (e : String),
      parseVectorsOf samples block = .error e ↔
        (((samples.map Prod.fst).length < 2
            ∨ ((samples.map Prod.snd).flatten).length ≠ (samples.map Prod.fst).length * 6)
          ∧ e = "Parsed too few samples. Preview:\n" ++ previewStr block) := by
    intro samples block e
    unfold parseVectorsOf
    by_cases hc : (samples.map Prod.fst).length < 2
        ∨ ((samples.map Prod.snd).flatten).length ≠ (samples.map Prod.fst).length * 6
    · rw [if_pos hc]
      constructor
      · intro h
        cases h
        exact ⟨hc, rfl⟩
      · intro h
        rw [h.2]
    · rw [if_neg hc]
      constructor
      · intro h
        exact absurd h (by simp)
      · intro h
        exact absurd h.1 hc
  have hok : ∀ (samples : List (ℚ × List ℚ)) (block : List SrcLine) (t pv : List ℚ),
      parseVectorsOf samples block = .ok (t, pv) →
        2 ≤ t.length ∧ pv.length = t.length * 6 := by
    intro samples block t pv h
    unfold parseVectorsOf at h
    by_cases hc : (samples.map Prod.fst).length < 2
        ∨ ((samples.map Prod.snd).flatten).length ≠ (samples.map Prod.fst).length * 6
    · rw [if_pos hc] at h
      exact absurd h (by simp)
    · rw [if_neg hc] at h
      push_neg at hc
      simp only [Except.ok.injEq, Prod.mk.injEq] at h
      rw [← h.1, ← h.2]
      exact ⟨by omega, hc.2⟩
  refine ⟨fun block e => herr _ block e, fun block => hok _ block, ?_,
    fun block e => herr _ block e, fun block => hok _ block, ?_,
    ?_⟩
  · intro block
    rw [junoSamples_pv_len]
    simp
  · intro block
    rw [bennuSamples_pv_len]
    simp
  · intro ms e
    unfold ephemerisParseResult
    by_cases hc : (ms.map Prod.fst).length < 2
    · rw [if_pos hc]
      constructor
      · intro h
        cases h
        exact ⟨by simpa using hc, rfl⟩
      · intro h
        rw [h.2]
    · rw [if_neg hc]
      constructor
      · intro h
        exact absurd h (by simp)
      · intro h
        exact absurd h.1 (by simpa using hc)

/-- Witness for C3's amended theorem: on a concrete two-row block both
the juno and bennu parsers return successfully, and the success
conditions follow from the theorem. -/
theorem c3_amended_parser_errors_witness :
    (2 ≤ ([100, 101] : List ℚ).length
      ∧ ([1, 2, 3, 4, 5, 6, 1, 2, 3, 4, 5, 6] : List ℚ).length
          = ([100, 101] : List ℚ).length * 6)
    ∧ (2 ≤ ([100, 101] : List ℚ).length
      ∧ ([1, 2, 3, 4, 5, 6, 1, 2, 3, 4, 5, 6] : List ℚ).length
          = ([100, 101] : List ℚ).length * 6) :=
  ⟨c3_amended_parser_errors.2.1 c3WitnessBlock [100, 101]
      [1, 2, 3, 4, 5, 6, 1, 2, 3, 4, 5, 6] (by rfl),
   c3_amended_parser_errors.2.2.2.2.1 c3WitnessBlock [100, 101]
      [1, 2, 3, 4, 5, 6, 1, 2, 3, 4, 5, 6] (by rfl)⟩

/-- C3 counterexample: the juno-style error carries the block's first 25
lines ("junk row" occurs in the message), but the Ephemeris-script
variant raises a constant message in which no part of the offending
block occurs — contradicting the claim that every such raised error
includes the block preview. -/
theorem c3_counterexample :
    junoParseVectors [⟨"junk row", .table [] false⟩]
        = .error "Parsed too few samples. Preview:\njunk row"
    ∧ substrB "junk row".data "Parsed too few samples. Preview:\njunk row".data = true
    ∧ ephemerisParseResult [] = .error "Parsed too few samples from Horizons output."
    ∧ substrB "junk row".data "Parsed too few samples from Horizons output.".data = false :=
  ⟨by rfl, by decide, by rfl, by decide⟩

/-- C4 (amended): the juno/explorer CSV parser selects the six vector
cells by column count — offset 2 after the timestamp and calendar label
on an 8-column row, offset 1 right after the timestamp on a minimal
7-column row; the bennu parser instead requires at least 8 columns
(`parts[2:8]`), so a minimal 7-column row is silently dropped rather
than parsed with an adjusted offset. -/
theorem c4_amended_column_selection :
    (∀ (c0 lab : Cell) (v : List Cell) (jd : ℚ),
        dropTrailingEmpties (c0 :: lab :: v) = c0 :: lab :: v →
        v.length = 6 →
        c0.startsDigit = true →
        c0.valPlain = some jd →
        junoCsvLine (c0 :: lab :: v)
          = (v.mapM (fun c : Cell => c.valDE)).bind (fun vals => some (jd, vals)))
    ∧ (∀ (c0 : Cell) (v : List Cell) (jd : ℚ),
        dropTrailingEmpties (c0 :: v) = c0 :: v →
        v.length = 6 →
        c0.startsDigit = true →
        c0.valPlain = some jd →
        junoCsvLine (c0 :: v)
          = (v.mapM (fun c : Cell => c.valDE)).bind (fun vals => some (jd, vals)))
    ∧ (∀ parts : List Cell, parts.length = 7 → bennuCsvLine parts = none)
    ∧ (∀ (c0 lab : Cell) (v rest : List Cell) (jd : ℚ),
        v.length = 6 →
        c0.valPlain = some jd →
        bennuCsvLine (c0 :: lab :: (v ++ rest))
          = (v.mapM (fun c : Cell => c.valDE)).bind (fun vals => some (jd, vals))) := by
  refine ⟨?_, ?_, ?_, ?_⟩
  · intro c0 lab v jd hdte h6 hd hjd
    unfold junoCsvLine
    rw [hdte]
    simp only [List.head?_cons, Option.some_bind, hd, hjd]
    have hlen : (c0 :: lab :: v).length = 8 := by simp [h6]
    rw [if_neg (by simp)]
    have hoff : (if (c0 :: lab :: v).length ≥ 8 then 2 else 1) = 2 := by simp [hlen]
    rw [hoff]
    simp only [List.drop_succ_cons, List.drop_zero]
    rw [List.take_of_length_le (le_of_eq h6)]
    rw [if_neg (by omega)]
  · intro c0 v jd hdte h6 hd hjd
    unfold junoCsvLine
    rw [hdte]
    simp only [List.head?_cons, Option.some_bind, hd, hjd]
    have hlen : (c0 :: v).length = 7 := by simp [h6]
    rw [if_neg (by simp)]
    have hoff : (if (c0 :: v).length ≥ 8 then 2 else 1) = 1 := by simp [hlen]
    rw [hoff]
    simp only [List.drop_succ_cons, List.drop_zero]
    rw [List.take_of_length_le (le_of_eq h6)]
    rw [if_neg (by omega)]
  · intro parts h7
    unfold bennuCsvLine
    rw [if_pos (by omega)]
  · intro c0 lab v rest jd h6 hjd
    unfold bennuCsvLine
    have hlen : (c0 :: lab :: (v ++ rest)).length = 8 + rest.length := by
      simp only [List.length_cons, List.length_append, h6]
      omega
    rw [if_neg (by omega)]
    simp only [List.head?_cons, Option.some_bind, hjd]
    simp only [List.drop_succ_cons, List.drop_zero]
    rw [List.take_append_of_le_length (le_of_eq h6.symm), List.take_of_length_le (le_of_eq h6)]

/-- Witness for C4's amended theorem on concrete 8- and 7-column rows. -/
theorem c4_amended_column_selection_witness :
    junoCsvLine (numCell 100 :: labelCell ::
        [numCell 1, numCell 2, numCell 3, numCell 4, numCell 5, numCell 6])
      = (([numCell 1, numCell 2, numCell 3, numCell 4, numCell 5, numCell 6].mapM
          (fun c : Cell => c.valDE)).bind (fun vals => some ((100 : ℚ), vals)))
    ∧ bennuCsvLine [numCell 100, numCell 1, numCell 2, numCell 3, numCell 4,
        numCell 5, numCell 6] = none :=
  ⟨c4_amended_column_selection.1 (numCell 100) labelCell
      [numCell 1, numCell 2, numCell 3, numCell 4, numCell 5, numCell 6] 100
      (by decide) (by decide) (by rfl) (by rfl),
   c4_amended_column_selection.2.2.1
      [numCell 100, numCell 1, numCell 2, numCell 3, numCell 4, numCell 5, numCell 6]
      (by decide)⟩

/-- C4 counterexample: a minimal 7-column row (timestamp plus six vector
fields, all numeric) is parsed by the juno/explorer parser with the
adjusted offset, but the bennu parser drops it entirely — contradicting
the claim for bennu's `parse_vectors`. -/
theorem c4_counterexample :
    junoCsvLine [numCell 100, numCell 1, numCell 2, numCell 3, numCell 4,
        numCell 5, numCell 6] = some (100, [1, 2, 3, 4, 5, 6])
    ∧ bennuCsvLine [numCell 100, numCell 1, numCell 2, numCell 3, numCell 4,
        numCell 5, numCell 6] = none :=
  ⟨by decide, by decide⟩

/-- C5 (amended): the bennu interpreter returns the parsed disclosed limit
itself — the `%Y-%b-%d %H:%M` parse, whose seconds field is always zero,
with no one-second shift — and `None` when no phrase is recognized; the
juno interpreter never returns a boundary at all: it yields `None` when
its (doubled-backslash) pattern finds no match and otherwise crashes on
`int()` of a non-numeric capture. -/
theorem c5_amended_range_interpreter :
    (∀ msg : List Char, bennuEarliestSearch msg = none → bennuParseEarliest msg = none)
    ∧ (∀ msg cap : List Char, bennuEarliestSearch msg = some cap →
        bennuParseEarliest msg = strptimeYbdHM (stripWs cap))
    ∧ (∀ (s : List Char) (t : DT), strptimeYbdHM s = some t → t.second = 0)
    ∧ (∀ err : List Char,
        junoParseEarliest err = .ok none ∨ junoParseEarliest err = .error ()) := by
  refine ⟨?_, ?_, ?_, ?_⟩
  · intro msg h
    unfold bennuParseEarliest
    rw [h]
  · intro msg cap h
    unfold bennuParseEarliest
    rw [h]
  · intro s t h
    unfold strptimeYbdHM at h
    cases h1 : eatYear4 s with
    | none => rw [h1] at h; exact absurd h (by simp)
    | some p1 =>
      simp only [h1, Option.some_bind] at h
      cases h2 : eatLit ['-'] p1.2 with
      | none => rw [h2] at h; exact absurd h (by simp)
      | some s2 =>
        simp only [h2, Option.some_bind] at h
        cases h3 : eatMonthAbbrev s2 with
        | none => rw [h3] at h; exact absurd h (by simp)
        | some p3 =>
          simp only [h3, Option.some_bind] at h
          cases h4 : eatLit ['-'] p3.2 with
          | none => rw [h4] at h; exact absurd h (by simp)
          | some s4 =>
            simp only [h4, Option.some_bind] at h
            cases h5 : eatNum2 (fun v => decide (1 ≤ v ∧ v ≤ 31))
                (fun v => decide (1 ≤ v)) s4 with
            | none => rw [h5] at h; exact absurd h (by simp)
            | some p5 =>
              simp only [h5, Option.some_bind] at h
              cases h6 : eatWs1 p5.2 with
              | none => rw [h6] at h; exact absurd h (by simp)
              | some s6 =>
                simp only [h6, Option.some_bind] at h
                cases h7 : eatNum2 (fun v => decide (v ≤ 23)) (fun _ => true) s6 with
                | none => rw [h7] at h; exact absurd h (by simp)
                | some p7 =>
                  simp only [h7, Option.some_bind] at h
                  cases h8 : eatLit [':'] p7.2 with
                  | none => rw [h8] at h; exact absurd h (by simp)
                  | some s8 =>
                    simp only [h8, Option.some_bind] at h
                    cases h9 : eatNum2 (fun v => decide (v ≤ 59)) (fun _ => true) s8 with
                    | none => rw [h9] at h; exact absurd h (by simp)
                    | some p9 =>
                      simp only [h9, Option.some_bind] at h
                      by_cases h10 : p9.2 = []
                      · rw [if_pos h10] at h
                        simp only [Option.some.injEq] at h
                        rw [← h]
                      · rw [if_neg h10] at h
                        exact absurd h (by simp)
  · intro err
    unfold junoParseEarliest
    cases hs : junoEarliestSearch err with
    | none => exact Or.inl rfl
    | some mon => exact Or.inr rfl

/-- Witness for C5's amended theorem: the example message of the spec, a
boundary-free message, and the concrete strptime result. -/
theorem c5_amended_range_interpreter_witness :
    bennuParseEarliest "no boundary here".data = none
    ∧ bennuParseEarliest
        "Horizons ERROR: earliest available date is 1950-Jan-01 00:00 (UT)".data
        = strptimeYbdHM (stripWs "1950-Jan-01 00:00".data)
    ∧ (⟨1950, 1, 1, 0, 0, 0⟩ : DT).second = 0 :=
  ⟨c5_amended_range_interpreter.1 "no boundary here".data (by decide),
   c5_amended_range_interpreter.2.1
      "Horizons ERROR: earliest available date is 1950-Jan-01 00:00 (UT)".data
      "1950-Jan-01 00:00".data (by decide),
   c5_amended_range_interpreter.2.2.1 "1950-Jan-01 00:00".data
      ⟨1950, 1, 1, 0, 0, 0⟩ (by decide)⟩

/-- C5 counterexample: on the spec's own example message the bennu
interpreter returns the disclosed limit `1950-01-01T00:00:00Z` itself,
not the claimed one-second-later `1950-01-01T00:00:01Z`; and on a
realistic juno-style message the juno interpreter finds no match (its
doubled-backslash pattern) and returns no boundary. -/
theorem c5_counterexample :
    bennuParseEarliest
        "Horizons ERROR: earliest available date is 1950-Jan-01 00:00 (UT)".data
      = some ⟨1950, 1, 1, 0, 0, 0⟩
    ∧ (⟨1950, 1, 1, 0, 0, 0⟩ : DT) ≠ ⟨1950, 1, 1, 0, 0, 1⟩
    ∧ junoParseEarliest
        "No ephemeris for target prior to A.D. 1962-JAN-20 00:00:00.0000 UT".data
      = .ok none :=
  ⟨by decide, by decide, by rfl⟩

end MCS
